import Mathlib

/-!
# ghsecretsetter: a verification development

A shallow embedding of `main.go` of `thinkovation/ghsecretsetter` and proofs
about it.  The three functions of the program (`resolveSecretValue`,
`encryptSecret`, `main`) are translated line by line.  Everything the program
reaches outside itself (the file system, the random source behind
`box.SealAnonymous`, the GitHub API, `encoding/base64`, the YAML decoder, the
process environment) is an oracle of `Sys`: the theorems hold for every
behaviour of these collaborators.  The calls the program makes to them are
recorded, in order, in a trace of `Event`s.
-/

namespace GhSecretSetter

/-! ## Strings -/

/-- One byte. -/
abbrev Byte := Fin 256

/-- Go `string` (and `[]byte`): a finite sequence of bytes, not necessarily UTF-8. -/
abbrev GoString := List Byte

/-- Bytes of an ASCII string literal of the source. -/
def lit (s : String) : GoString := s.toList.map fun c => Fin.ofNat c.toNat

/-- The literal `"file("` of `resolveSecretValue`. -/
def filePrefix : GoString := [102, 105, 108, 101, 40]

/-- The literal `")"` of `resolveSecretValue`. -/
def closeParen : GoString := [41]

/-- The literal `"\n"` of `resolveSecretValue`. -/
def newline : GoString := [10]

/-- Go `strings.HasPrefix`: `len(s) >= len(prefix) && s[:len(prefix)] == prefix`. -/
def HasPrefix (s pre : GoString) : Bool :=
  decide (pre.length ≤ s.length) && decide (s.take pre.length = pre)

/-- Go `strings.HasSuffix`: `len(s) >= len(suffix) && s[len(s)-len(suffix):] == suffix`. -/
def HasSuffix (s suf : GoString) : Bool :=
  decide (suf.length ≤ s.length) && decide (s.drop (s.length - suf.length) = suf)

/-- Go `strings.TrimSuffix`: `s` without `suffix` when it ends with it, else `s`. -/
def TrimSuffix (s suf : GoString) : GoString :=
  if HasSuffix s suf then s.take (s.length - suf.length) else s

/-- Go slice expression `s[lo:hi]` on `int` indices: `none` is the run-time panic
"slice bounds out of range", raised unless `0 <= lo <= hi <= len(s)`. -/
def slice (s : GoString) (lo hi : Int) : Option GoString :=
  if 0 ≤ lo ∧ lo ≤ hi ∧ hi ≤ (s.length : Int) then
    some ((s.take hi.toNat).drop lo.toNat)
  else none

/-! ## Data model -/

/-- The cause carried by an `error` value of a collaborator (its message). -/
abbrev Cause := GoString

deriving instance DecidableEq for Except

/-- Go `map[string]string` entries, one pair per key. -/
abbrev GoMap := List (GoString × GoString)

/-- Go `m[k]`, with presence. -/
def GoMap.get (m : GoMap) (k : GoString) : Option GoString :=
  (m.find? fun e => decide (e.1 = k)).map Prod.snd

/-- Go `m[k] = v`: the entry of `k` is replaced, or added when absent. -/
def GoMap.set (m : GoMap) (k v : GoString) : GoMap :=
  if m.any (fun e => decide (e.1 = k)) then
    m.map fun e => if e.1 = k then (k, v) else e
  else m ++ [(k, v)]

/-- The `Config` struct; `Secrets = none` is the nil map. -/
structure Config where
  Owner : GoString := []
  Repo : GoString := []
  Secret : GoString := []
  Value : GoString := []
  Secrets : Option GoMap := none
  Token : GoString := []
deriving DecidableEq, Repr

/-- The command line flags after `flag.Parse()`; an absent flag is `""`. -/
structure Flags where
  configPath : GoString := []
  owner : GoString := []
  repo : GoString := []
  secret : GoString := []
  value : GoString := []
  token : GoString := []
deriving DecidableEq, Repr

/-- The `github.PublicKey` read through `GetKeyID()` and `GetKey()`. -/
structure PublicKey where
  keyID : GoString
  key : GoString
deriving DecidableEq, Repr

/-- The `github.EncryptedSecret` built for one secret. -/
structure EncryptedSecret where
  Name : GoString
  KeyID : GoString
  EncryptedValue : GoString
deriving DecidableEq, Repr

/-- Errors of `resolveSecretValue`. -/
inductive ResolveError where
  /-- `"empty file path in file() syntax"`. -/
  | emptyFilePath
  /-- `"failed to read file '%s': %w"` with the path and the wrapped cause. -/
  | fileReadFailed (path : GoString) (cause : Cause)
deriving DecidableEq, Repr

/-- Errors of `encryptSecret`. -/
inductive EncryptError where
  /-- `"failed to decode public key: %w"`. -/
  | decodeFailed (cause : Cause)
  /-- `"public key must be 32 bytes, got %d"`. -/
  | invalidKeyLength (got : Nat)
  /-- `"failed to seal secret: %w"`. -/
  | sealFailed (cause : Cause)
deriving DecidableEq, Repr

/-- The `log.Fatal` / `log.Fatalf` exits of `main`. -/
inductive Fatal where
  /-- `"Failed to load config file: %v"`. -/
  | loadConfig (cause : Cause)
  /-- `"Both -secret and -value must be provided when using CLI flags"`. -/
  | secretValuePair
  /-- `"Missing required values: owner, repo"`. -/
  | missingOwnerRepo
  /-- `"No secrets to set. ..."`. -/
  | noSecrets
  /-- `"GitHub token not provided via flag, config, or GITHUB_TOKEN env var"`. -/
  | noToken
  /-- `"Failed to get public key: %v"`. -/
  | getPublicKey (cause : Cause)
deriving DecidableEq, Repr

/-- What the program does to the outside, in the order it does it. -/
inductive Event where
  /-- `os.ReadFile(path)` of `loadConfig`. -/
  | readConfig (path : GoString)
  /-- `os.ReadFile(filePath)` of `resolveSecretValue`. -/
  | readFile (path : GoString)
  /-- `box.SealAnonymous(nil, msg, &publicKey, rand.Reader)`. -/
  | seal (msg : List Byte) (publicKey : List Byte)
  /-- `client.Actions.GetRepoPublicKey(ctx, owner, repo)`. -/
  | getRepoPublicKey (owner repo : GoString)
  /-- `client.Actions.CreateOrUpdateRepoSecret(ctx, owner, repo, secretReq)`. -/
  | createOrUpdateRepoSecret (owner repo : GoString) (req : EncryptedSecret)
  /-- `log.Printf("Failed to resolve secret '%s': %v", ...)`. -/
  | logResolveFailed (name : GoString) (err : ResolveError)
  /-- `log.Printf("Failed to encrypt secret '%s': %v", ...)`. -/
  | logEncryptFailed (name : GoString) (err : EncryptError)
  /-- `log.Printf("Failed to set secret '%s': %v", ...)`. -/
  | logSetFailed (name : GoString) (cause : Cause)
  /-- `fmt.Printf("Secret '%s' set successfully\n", ...)`. -/
  | printSet (name : GoString)
  /-- `fmt.Printf("All %d secrets set successfully!\n", ...)`. -/
  | printAll (count : Nat)
  /-- `fmt.Printf("Warning: %d of %d secrets set successfully\n", ...)`. -/
  | printWarning (count total : Nat)
deriving DecidableEq, Repr

/-- The collaborators of the program over a world `W` that they may read and
change: any behaviour of the file system, the random source, the API and the
libraries is an instance. -/
structure Sys (W : Type) where
  /-- `os.ReadFile`. -/
  readFile : W → GoString → Except Cause (List Byte) × W
  /-- `yaml.Unmarshal` into a `Config`. -/
  yamlUnmarshal : List Byte → Except Cause Config
  /-- `os.Getenv("GITHUB_TOKEN")`. -/
  getenvToken : W → GoString
  /-- `base64.StdEncoding.DecodeString`. -/
  b64Decode : GoString → Except Cause (List Byte)
  /-- `base64.StdEncoding.EncodeToString`. -/
  b64Encode : List Byte → GoString
  /-- `box.SealAnonymous(nil, msg, &publicKey, rand.Reader)`; draws from the random source. -/
  sealAnonymous : W → List Byte → List Byte → Except Cause (List Byte) × W
  /-- `client.Actions.GetRepoPublicKey` of the client made from `token`, on `owner`, `repo`. -/
  getRepoPublicKey : W → GoString → GoString → GoString → Except Cause PublicKey × W
  /-- `client.Actions.CreateOrUpdateRepoSecret` of the client made from `token`, on
  `owner`, `repo`. -/
  createOrUpdateRepoSecret :
    W → GoString → GoString → GoString → EncryptedSecret → Except Cause Unit × W
  /-- The order in which `range` visits the entries of a map. -/
  rangeOrder : W → GoMap → GoMap

/-- The state of a run: the world and the events so far. -/
structure St (W : Type) where
  world : W
  trace : List Event
deriving DecidableEq

/-- The state after the collaborators moved to `w` and `e` happened. -/
def St.step {W : Type} (st : St W) (w : W) (e : Event) : St W :=
  ⟨w, st.trace ++ [e]⟩

/-! ## `resolveSecretValue` -/

/-- `resolveSecretValue` (main.go 159-184).  `none` is a run-time panic. -/
def resolveSecretValue {W : Type} (sys : Sys W) (st : St W) (value : GoString) :
    Option (Except ResolveError GoString × St W) :=
  if HasPrefix value filePrefix && HasSuffix value closeParen then
    match slice value 5 ((value.length : Int) - 1) with
    | none => none
    | some filePath =>
      if filePath = [] then
        some (.error .emptyFilePath, st)
      else
        match sys.readFile st.world filePath with
        | (.error cause, w) =>
          some (.error (.fileReadFailed filePath cause), st.step w (.readFile filePath))
        | (.ok content, w) =>
          let result := content
          let result := if HasSuffix result newline then TrimSuffix result newline else result
          some (.ok result, st.step w (.readFile filePath))
  else
    some (.ok value, st)

/-! ## `encryptSecret` -/

/-- Go `copy(dst, src)`: the first `min(len(dst), len(src))` bytes of `dst` are
overwritten with those of `src`. -/
def copyBytes (dst src : List Byte) : List Byte :=
  src.take dst.length ++ dst.drop src.length

/-- `encryptSecret` (main.go 186-207). -/
def encryptSecret {W : Type} (sys : Sys W) (st : St W)
    (publicKeyBase64 secretValue : GoString) : Except EncryptError GoString × St W :=
  match sys.b64Decode publicKeyBase64 with
  | .error cause => (.error (.decodeFailed cause), st)
  | .ok recipientKey =>
    if recipientKey.length ≠ 32 then
      (.error (.invalidKeyLength recipientKey.length), st)
    else
      let publicKey := copyBytes (List.replicate 32 0) recipientKey
      match sys.sealAnonymous st.world secretValue publicKey with
      | (.error cause, w) =>
        (.error (.sealFailed cause), st.step w (.seal secretValue publicKey))
      | (.ok sealed, w) =>
        (.ok (sys.b64Encode sealed), st.step w (.seal secretValue publicKey))

/-! ## `main` -/

/-- `loadConfig` (main.go 147-157). -/
def loadConfig {W : Type} (sys : Sys W) (st : St W) (path : GoString) :
    Except Cause Config × St W :=
  match sys.readFile st.world path with
  | (.error cause, w) => (.error cause, st.step w (.readConfig path))
  | (.ok data, w) =>
    match sys.yamlUnmarshal data with
    | .error cause => (.error cause, st.step w (.readConfig path))
    | .ok cfg => (.ok cfg, st.step w (.readConfig path))

/-- The flag overrides of `main` (main.go 50-59). -/
def applyFlagOverrides (flags : Flags) (cfg : Config) : Config :=
  let cfg := if flags.owner ≠ [] then { cfg with Owner := flags.owner } else cfg
  let cfg := if flags.repo ≠ [] then { cfg with Repo := flags.repo } else cfg
  let cfg := if flags.token ≠ [] then { cfg with Token := flags.token } else cfg
  cfg

/-- The map after `if cfg.Secrets == nil { cfg.Secrets = make(...) }; cfg.Secrets[k] = v`. -/
def setSecret (secrets : Option GoMap) (k v : GoString) : Option GoMap :=
  match secrets with
  | none => some (GoMap.set [] k v)
  | some m => some (m.set k v)

/-- The single secret of the command line (main.go 61-69). -/
def mergeFlagSecret (flags : Flags) (cfg : Config) : Except Fatal Config :=
  if flags.secret ≠ [] ∧ flags.value ≠ [] then
    .ok { cfg with Secrets := setSecret cfg.Secrets flags.secret flags.value }
  else if flags.secret ≠ [] ∨ flags.value ≠ [] then
    .error .secretValuePair
  else
    .ok cfg

/-- The single secret of the config file (main.go 71-77). -/
def mergeConfigSecret (cfg : Config) : Config :=
  if cfg.Secret ≠ [] ∧ cfg.Value ≠ [] then
    { cfg with Secrets := setSecret cfg.Secrets cfg.Secret cfg.Value }
  else cfg

/-- Go `len(cfg.Secrets)`; the nil map has length 0. -/
def Config.numSecrets (cfg : Config) : Nat :=
  match cfg.Secrets with
  | none => 0
  | some m => m.length

/-- The entries of `cfg.Secrets`; the nil map has none. -/
def Config.entries (cfg : Config) : GoMap :=
  match cfg.Secrets with
  | none => []
  | some m => m

/-- The validation of the required fields (main.go 79-85). -/
def validate (cfg : Config) : Except Fatal Unit :=
  if cfg.Owner = [] ∨ cfg.Repo = [] then .error .missingOwnerRepo
  else if cfg.numSecrets = 0 then .error .noSecrets
  else .ok ()

/-- The token of the client (main.go 87-94). -/
def determineToken {W : Type} (sys : Sys W) (w : W) (cfg : Config) : Except Fatal GoString :=
  let finalToken := cfg.Token
  let finalToken := if finalToken = [] then sys.getenvToken w else finalToken
  if finalToken = [] then .error .noToken else .ok finalToken

/-- The config `main` starts from (main.go 39-48): `Config{}`, or the file's
when `-config` is given. -/
def loadStep {W : Type} (sys : Sys W) (flags : Flags) (st : St W) :
    Except Cause Config × St W :=
  if flags.configPath ≠ [] then loadConfig sys st flags.configPath else (.ok {}, st)

/-- Everything `main` does before it builds the client (main.go 39-94): the
config in force and the token, or the fatal exit. -/
def startup {W : Type} (sys : Sys W) (flags : Flags) (st : St W) :
    Except Fatal (Config × GoString) × St W :=
  match loadStep sys flags st with
  | (.error cause, st) => (.error (.loadConfig cause), st)
  | (.ok cfg, st) =>
    let cfg := applyFlagOverrides flags cfg
    match mergeFlagSecret flags cfg with
    | .error f => (.error f, st)
    | .ok cfg =>
      let cfg := mergeConfigSecret cfg
      match validate cfg with
      | .error f => (.error f, st)
      | .ok () =>
        match determineToken sys st.world cfg with
        | .error f => (.error f, st)
        | .ok token => (.ok (cfg, token), st)

/-- One iteration of the loop of `main` (main.go 109-138) on the secret `kv`:
`acc.1` is `successCount`.  `none` is a run-time panic. -/
def processSecret {W : Type} (sys : Sys W) (token : GoString) (cfg : Config) (key : PublicKey)
    (acc : Nat × St W) (kv : GoString × GoString) : Option (Nat × St W) :=
  match resolveSecretValue sys acc.2 kv.2 with
  | none => none
  | some (.error err, st) =>
    some (acc.1, st.step st.world (.logResolveFailed kv.1 err))
  | some (.ok resolvedValue, st) =>
    match encryptSecret sys st key.key resolvedValue with
    | (.error err, st) =>
      some (acc.1, st.step st.world (.logEncryptFailed kv.1 err))
    | (.ok encrypted, st) =>
      let secretReq : EncryptedSecret :=
        { Name := kv.1, KeyID := key.keyID, EncryptedValue := encrypted }
      let st' := fun w => st.step w (.createOrUpdateRepoSecret cfg.Owner cfg.Repo secretReq)
      match sys.createOrUpdateRepoSecret st.world token cfg.Owner cfg.Repo secretReq with
      | (.error cause, w) =>
        some (acc.1, (st' w).step w (.logSetFailed kv.1 cause))
      | (.ok (), w) =>
        some (acc.1 + 1, (st' w).step w (.printSet kv.1))

/-- The loop of `main` over the entries in the order `range` visits them. -/
def batchLoop {W : Type} (sys : Sys W) (token : GoString) (cfg : Config) (key : PublicKey) :
    List (GoString × GoString) → Nat × St W → Option (Nat × St W)
  | [], acc => some acc
  | kv :: rest, acc =>
    match processSecret sys token cfg key acc kv with
    | none => none
    | some acc => batchLoop sys token cfg key rest acc

/-- The summary line (main.go 140-144). -/
def summary (successCount total : Nat) : Event :=
  if successCount = total then .printAll successCount else .printWarning successCount total

/-- The batch of `main` (main.go 107-144) over the entries `secrets` of
`cfg.Secrets` in visiting order: the final `successCount` and state. -/
def runBatch {W : Type} (sys : Sys W) (token : GoString) (cfg : Config) (key : PublicKey)
    (secrets : List (GoString × GoString)) (st : St W) : Option (Nat × St W) :=
  match batchLoop sys token cfg key secrets (0, st) with
  | none => none
  | some (successCount, st) =>
    some (successCount, st.step st.world (summary successCount cfg.numSecrets))

/-- `main` (main.go 28-145): the fatal exit or the normal return, and the final
state.  `none` is a run-time panic. -/
def main {W : Type} (sys : Sys W) (flags : Flags) (st : St W) :
    Option (Except Fatal Unit × St W) :=
  match startup sys flags st with
  | (.error f, st) => some (.error f, st)
  | (.ok (cfg, token), st) =>
    match sys.getRepoPublicKey st.world token cfg.Owner cfg.Repo with
    | (.error cause, w) =>
      some (.error (.getPublicKey cause), st.step w (.getRepoPublicKey cfg.Owner cfg.Repo))
    | (.ok key, w) =>
      let st := st.step w (.getRepoPublicKey cfg.Owner cfg.Repo)
      match runBatch sys token cfg key (sys.rangeOrder st.world cfg.entries) st with
      | none => none
      | some (_, st) => some (.ok (), st)

/-! ## What the claims speak of -/

/-- Whether `e` is a submission of the secret named `name` to the API. -/
def Event.isSubmitOf (name : GoString) : Event → Bool
  | .createOrUpdateRepoSecret _ _ req => decide (req.Name = name)
  | _ => false

/-- Whether `e` is a call of the API. -/
def Event.isAPICall : Event → Bool
  | .getRepoPublicKey _ _ => true
  | .createOrUpdateRepoSecret _ _ _ => true
  | _ => false

/-- Whether `e` belongs to the work on a secret: its file read, its sealing,
its submission or the line printed or logged for it. -/
def Event.isSecretWork : Event → Bool
  | .readFile _ => true
  | .seal _ _ => true
  | .createOrUpdateRepoSecret _ _ _ => true
  | .logResolveFailed _ _ => true
  | .logEncryptFailed _ _ => true
  | .logSetFailed _ _ => true
  | .printSet _ => true
  | _ => false

/-- Whether `e` is the line printed or logged for the secret named `name` at
the end of its iteration. -/
def Event.isLineOf (name : GoString) : Event → Bool
  | .logResolveFailed n _ => decide (n = name)
  | .logEncryptFailed n _ => decide (n = name)
  | .logSetFailed n _ => decide (n = name)
  | .printSet n => decide (n = name)
  | _ => false

/-- The number of secrets a summary line reports as set: the `%d` of
`"All %d secrets set successfully!"`, the first `%d` of
`"Warning: %d of %d secrets set successfully"`. -/
def Event.reportedSucceeded : Event → Option Nat
  | .printAll count => some count
  | .printWarning count _ => some count
  | _ => none

/-- The total number of secrets a summary line reports: all `%d` secrets of
`"All %d secrets set successfully!"`, the second `%d` of
`"Warning: %d of %d secrets set successfully"`. -/
def Event.reportedTotal : Event → Option Nat
  | .printAll count => some count
  | .printWarning _ total => some total
  | _ => none

/-- How many iterations of the loop ended for the secret named `name` in `trace`. -/
def iterations (name : GoString) (trace : List Event) : Nat :=
  trace.countP (Event.isLineOf name)

/-- How many times the secret named `name` was submitted in `trace`. -/
def submissions (name : GoString) (trace : List Event) : Nat :=
  trace.countP (Event.isSubmitOf name)

/-- Resolution and encryption of the secret `kv` both succeed from the state `st`. -/
def resolvesAndEncrypts {W : Type} (sys : Sys W) (key : PublicKey) (st : St W)
    (kv : GoString × GoString) : Bool :=
  match resolveSecretValue sys st kv.2 with
  | some (.ok resolved, st1) =>
    match encryptSecret sys st1 key.key resolved with
    | (.ok _, _) => true
    | (.error _, _) => false
  | _ => false

/-- Resolution, encryption and submission of the secret `kv` all succeed from the state `st`. -/
def allStagesSucceed {W : Type} (sys : Sys W) (token : GoString) (cfg : Config)
    (key : PublicKey) (st : St W) (kv : GoString × GoString) : Bool :=
  match resolveSecretValue sys st kv.2 with
  | some (.ok resolved, st1) =>
    match encryptSecret sys st1 key.key resolved with
    | (.ok encrypted, st2) =>
      match sys.createOrUpdateRepoSecret st2.world token cfg.Owner cfg.Repo
          { Name := kv.1, KeyID := key.keyID, EncryptedValue := encrypted } with
      | (.ok _, _) => true
      | (.error _, _) => false
    | (.error _, _) => false
  | _ => false

/-- The secrets of a batch whose three stages all succeed, each taken in the
state the loop is in when it reaches it. -/
def succeededSecrets {W : Type} (sys : Sys W) (token : GoString) (cfg : Config)
    (key : PublicKey) : List (GoString × GoString) → St W → List (GoString × GoString)
  | [], _ => []
  | kv :: rest, st =>
    let here := if allStagesSucceed sys token cfg key st kv then [kv] else []
    match processSecret sys token cfg key (0, st) kv with
    | none => here
    | some (_, st') => here ++ succeededSecrets sys token cfg key rest st'

/-! ## A reference instance of the collaborators

`stdEncode` and `stdDecode` follow `encoding/base64` (RFC 4648, section 4).
`boxSeal` and `boxOpen` stand in for `nacl/box`: they have the layout of a
sealed box (32 bytes of ephemeral public key, the ciphertext as long as the
plaintext, 16 bytes of tag) and its contract, with byte arithmetic in place of
Curve25519 and XSalsa20-Poly1305. -/

/-- The alphabet of RFC 4648 section 4: the character of the 6-bit value `i`. -/
def stdChar (i : Nat) : Byte :=
  if i < 26 then Fin.ofNat (65 + i)
  else if i < 52 then Fin.ofNat (97 + (i - 26))
  else if i < 62 then Fin.ofNat (48 + (i - 52))
  else if i = 62 then 43
  else 47

/-- The 6-bit value of a character of the alphabet, `none` for any other byte. -/
def stdValue (c : Byte) : Option Nat :=
  if 65 ≤ c.val ∧ c.val ≤ 90 then some (c.val - 65)
  else if 97 ≤ c.val ∧ c.val ≤ 122 then some (c.val - 97 + 26)
  else if 48 ≤ c.val ∧ c.val ≤ 57 then some (c.val - 48 + 52)
  else if c.val = 43 then some 62
  else if c.val = 47 then some 63
  else none

/-- The padding character `=`. -/
def padChar : Byte := 61

/-- The encoding `base64.StdEncoding.EncodeToString`: three bytes give four
characters, a last group of one or two bytes is padded with `=`. -/
def stdEncode : List Byte → GoString
  | [] => []
  | [a] => [stdChar (a.val / 4), stdChar (a.val % 4 * 16), padChar, padChar]
  | [a, b] =>
    [stdChar (a.val / 4), stdChar (a.val % 4 * 16 + b.val / 16), stdChar (b.val % 16 * 4), padChar]
  | a :: b :: c :: rest =>
    stdChar (a.val / 4) :: stdChar (a.val % 4 * 16 + b.val / 16)
      :: stdChar (b.val % 16 * 4 + c.val / 64) :: stdChar (c.val % 64) :: stdEncode rest

/-- The start of the message of `base64.CorruptInputError`.  Go's message goes
on with the position, `" at input byte N"`, which is not modelled. -/
def corruptInput : Cause := lit "illegal base64 data"

/-- The groups of four characters of a padded base64 text, newlines removed. -/
def stdDecodeGroups : GoString → Except Cause (List Byte)
  | [] => .ok []
  | c1 :: c2 :: c3 :: c4 :: rest =>
    match stdValue c1, stdValue c2 with
    | some v1, some v2 =>
      if c3 = padChar then
        if c4 = padChar ∧ rest = [] then .ok [Fin.ofNat (v1 * 4 + v2 / 16)]
        else .error corruptInput
      else
        match stdValue c3 with
        | none => .error corruptInput
        | some v3 =>
          if c4 = padChar then
            if rest = [] then
              .ok [Fin.ofNat (v1 * 4 + v2 / 16), Fin.ofNat (v2 % 16 * 16 + v3 / 4)]
            else .error corruptInput
          else
            match stdValue c4 with
            | none => .error corruptInput
            | some v4 =>
              match stdDecodeGroups rest with
              | .error e => .error e
              | .ok bs =>
                .ok (Fin.ofNat (v1 * 4 + v2 / 16) :: Fin.ofNat (v2 % 16 * 16 + v3 / 4)
                  :: Fin.ofNat (v3 % 4 * 64 + v4) :: bs)
    | _, _ => .error corruptInput
  | _ => .error corruptInput

/-- The decoding `base64.StdEncoding.DecodeString`: `\r` and `\n` are skipped,
padding is required, and the unused low bits of a padded group are not checked. -/
def stdDecode (s : GoString) : Except Cause (List Byte) :=
  stdDecodeGroups (s.filter fun c => decide (c ≠ 10 ∧ c ≠ 13))

/-- The public key of the private key `sk`. -/
def boxPublic (sk : List Byte) : List Byte := sk.map fun b => 9 * b

/-- The secret shared by the holder of `sk` and the holder of the private key of `pk`. -/
def boxShared (sk pk : List Byte) : Byte := (List.zipWith (fun a b => a * b) sk pk).sum

/-- The key stream byte of a box: the shared secret and the nonce of the two public keys. -/
def boxKey (shared : Byte) (epk pk : List Byte) : Byte := shared + (epk ++ pk).sum

/-- The 16 bytes of tag over the ciphertext. -/
def boxTag (k : Byte) (ct : List Byte) : List Byte := List.replicate 16 (k + ct.sum)

/-- The sealed box of `msg` for `pk` made with the ephemeral private key `esk`. -/
def boxSeal (esk msg pk : List Byte) : List Byte :=
  let epk := boxPublic esk
  let k := boxKey (boxShared esk pk) epk pk
  let ct := msg.map fun b => b + k
  epk ++ ct ++ boxTag k ct

/-- The plaintext of a sealed box for the key pair `pk`, `sk`; `none` when it
is too short or its tag is wrong. -/
def boxOpen (box pk sk : List Byte) : Option (List Byte) :=
  if box.length < 48 then none
  else
    let epk := box.take 32
    let ct := (box.drop 32).take (box.length - 48)
    let tag := box.drop (box.length - 16)
    let k := boxKey (boxShared sk epk) epk pk
    if tag = boxTag k ct then some (ct.map fun b => b - k) else none

/-- A world of the reference instance. -/
structure World where
  /-- The readable files and their contents. -/
  files : List (GoString × List Byte) := []
  /-- What the next reads of the random source give: 32 bytes, or a failure. -/
  random : List (Option (List Byte)) := []
  /-- The names of the secrets the API refuses. -/
  refused : List GoString := []
  /-- The public key of the repository, when the API can give it. -/
  key : Option PublicKey := none
  /-- The value of `GITHUB_TOKEN`. -/
  envToken : GoString := []
deriving DecidableEq, Repr

/-- The reference instance: `docs` lists the YAML documents the decoder knows
with the `Config` each decodes to. -/
def refSys (docs : List (List Byte × Config)) : Sys World where
  readFile w path :=
    match w.files.lookup path with
    | some content => (.ok content, w)
    | none => (.error (lit "open " ++ path ++ lit ": no such file or directory"), w)
  yamlUnmarshal data :=
    match docs.lookup data with
    | some cfg => .ok cfg
    | none => .error (lit "yaml: unmarshal errors")
  getenvToken w := w.envToken
  b64Decode := stdDecode
  b64Encode := stdEncode
  sealAnonymous w msg pk :=
    match w.random with
    | [] => (.error (lit "EOF"), w)
    | none :: rest => (.error (lit "unexpected EOF"), { w with random := rest })
    | some esk :: rest =>
      if esk.length = 32 then (.ok (boxSeal esk msg pk), { w with random := rest })
      else (.error (lit "unexpected EOF"), { w with random := rest })
  getRepoPublicKey w _ _ _ :=
    match w.key with
    | some key => (.ok key, w)
    | none => (.error (lit "404 Not Found"), w)
  createOrUpdateRepoSecret w _ _ _ req :=
    if req.Name ∈ w.refused then (.error (lit "422 Unprocessable Entity"), w) else (.ok (), w)
  rangeOrder _ m := m

/-! ## Concrete inputs -/

/-- A private key of the reference box. -/
def repoPrivate : List Byte := (List.range 32).map fun i => Fin.ofNat (7 * i + 1)

/-- Its public key, 32 bytes. -/
def repoPublic : List Byte := boxPublic repoPrivate

/-- The public key of the repository as the API gives it. -/
def repoKey : PublicKey := { keyID := lit "568250167242549743", key := stdEncode repoPublic }

/-- A key whose base64 text decodes to 31 bytes. -/
def shortKey : PublicKey :=
  { keyID := lit "568250167242549743", key := stdEncode (repoPublic.take 31) }

/-- The 32 bytes of one read of the random source. -/
def draw (n : Nat) : List Byte := (List.range 32).map fun i => Fin.ofNat (i + n)

/-- Three secrets: `A` and `C` literal, `B` read from a file. -/
def threeSecrets : GoMap :=
  [(lit "A", lit "alpha"), (lit "B", lit "file(/run/b)"), (lit "C", lit "gamma")]

/-- The config in force for the batch of `threeSecrets`. -/
def batchConfig : Config :=
  { Owner := lit "octo", Repo := lit "app", Secrets := some threeSecrets, Token := lit "t0" }

/-- A world in which everything works: the file of `B` is there, the random
source gives three reads, the API accepts every secret. -/
def goodWorld : World :=
  { files := [(lit "/run/b", lit "beta\n")],
    random := [some (draw 1), some (draw 2), some (draw 3)],
    key := some repoKey }

/-- The world `goodWorld` where the second read of the random source fails. -/
def sealFailsWorld : World :=
  { goodWorld with random := [some (draw 1), none, some (draw 3)] }

/-- A world in which the file of `B` is missing and the API refuses `C`. -/
def roughWorld : World :=
  { files := [], random := [some (draw 1), some (draw 3)], refused := [lit "C"],
    key := some repoKey }

/-- A world whose only file holds `abc` followed by two newlines. -/
def fileWorld : World := { files := [(lit "/tmp/x", lit "abc\n\n")] }

/-- A YAML document with the deprecated single secret, and what it decodes to. -/
def legacyDoc : List Byte × Config :=
  (lit "owner: octo\nrepo: app\ntoken: t0\nsecret: N\nvalue: W\n",
   { Owner := lit "octo", Repo := lit "app", Token := lit "t0",
     Secret := lit "N", Value := lit "W" })

/-- A world whose config file is `legacyDoc`. -/
def legacyWorld : World :=
  { files := [(lit "cfg.yaml", legacyDoc.1)], random := [some (draw 1)], key := some repoKey }

/-- The command line `-config cfg.yaml -secret N -value V`. -/
def legacyFlags : Flags := { configPath := lit "cfg.yaml", secret := lit "N", value := lit "V" }

/-! ## Lemmas on strings -/

theorem lit_filePrefix : lit "file(" = filePrefix := by decide

theorem lit_closeParen : lit ")" = closeParen := by decide

theorem lit_newline : lit "\n" = newline := by decide

theorem hasPrefix_iff (s pre : GoString) : HasPrefix s pre = true ↔ pre <+: s := by
  unfold HasPrefix
  simp only [Bool.and_eq_true, decide_eq_true_eq]
  constructor
  · rintro ⟨_, h⟩
    have := List.take_append_drop pre.length s
    rw [h] at this
    exact ⟨_, this⟩
  · rintro ⟨t, rfl⟩
    simp

theorem hasSuffix_iff (s suf : GoString) : HasSuffix s suf = true ↔ suf <:+ s := by
  unfold HasSuffix
  simp only [Bool.and_eq_true, decide_eq_true_eq]
  constructor
  · rintro ⟨_, h⟩
    have := List.take_append_drop (s.length - suf.length) s
    rw [h] at this
    exact ⟨_, this⟩
  · rintro ⟨t, rfl⟩
    simp

theorem trimSuffix_append (d suf : GoString) : TrimSuffix (d ++ suf) suf = d := by
  have h : HasSuffix (d ++ suf) suf = true := (hasSuffix_iff _ _).2 ⟨d, rfl⟩
  simp [TrimSuffix, h]

/-- What the strip of `resolveSecretValue` computes: the last byte goes when it is a newline. -/
theorem strip_newline_eq (c : GoString) :
    (if HasSuffix c newline then TrimSuffix c newline else c)
      = if c.getLast? = some 10 then c.dropLast else c := by
  rcases List.eq_nil_or_concat c with rfl | ⟨d, b, rfl⟩
  · decide
  · by_cases hb : b = 10
    · subst hb
      have h : HasSuffix (d ++ [10]) newline = true := (hasSuffix_iff _ _).2 ⟨d, rfl⟩
      have h2 : TrimSuffix (d ++ [10]) newline = d := trimSuffix_append d newline
      simp [h, h2]
    · have h : HasSuffix (d ++ [b]) newline = false := by
        rw [Bool.eq_false_iff, Ne, hasSuffix_iff]
        rintro ⟨t, ht⟩
        have := congrArg List.getLast? ht
        simp [newline] at this
        exact hb this.symm
      simp [h, hb]

/-- A value with the prefix `file(` and the suffix `)` is `file(` + path + `)`. -/
theorem file_form (v : GoString) (hp : filePrefix <+: v) (hs : closeParen <:+ v) :
    ∃ path, v = filePrefix ++ path ++ closeParen := by
  obtain ⟨t, rfl⟩ := hp
  obtain ⟨u, hu⟩ := hs
  rcases List.eq_nil_or_concat t with rfl | ⟨path, b, rfl⟩
  · have := congrArg List.getLast? hu
    simp [filePrefix, closeParen] at this
  · have := congrArg List.getLast? hu
    simp [closeParen] at this
    subst this
    exact ⟨path, by simp [closeParen]⟩

theorem slice_file (path : GoString) :
    slice (filePrefix ++ path ++ closeParen) 5
      (((filePrefix ++ path ++ closeParen).length : Int) - 1) = some path := by
  have hlen : (filePrefix ++ path ++ closeParen).length = path.length + 6 := by
    simp [filePrefix, closeParen]
  have hi : (((filePrefix ++ path ++ closeParen).length : Int) - 1).toNat = 5 + path.length := by
    rw [hlen]; omega
  unfold slice
  rw [if_pos (by rw [hlen]; omega), hi]
  have h5 : filePrefix.length = 5 := rfl
  simp [List.take_append_eq_append_take, h5, List.drop_append_eq_append_drop]

/-- The `file(...)` branch of `resolveSecretValue`, once the path is cut out. -/
theorem resolve_file (W : Type) (sys : Sys W) (st : St W) (path : GoString) :
    resolveSecretValue sys st (filePrefix ++ path ++ closeParen) =
      if path = [] then some (.error .emptyFilePath, st)
      else match sys.readFile st.world path with
        | (.error cause, w) =>
          some (.error (.fileReadFailed path cause), st.step w (.readFile path))
        | (.ok content, w) =>
          some (.ok (if content.getLast? = some 10 then content.dropLast else content),
            st.step w (.readFile path)) := by
  have hp : HasPrefix (filePrefix ++ path ++ closeParen) filePrefix = true :=
    (hasPrefix_iff _ _).2 ⟨path ++ closeParen, by simp⟩
  have hs : HasSuffix (filePrefix ++ path ++ closeParen) closeParen = true :=
    (hasSuffix_iff _ _).2 ⟨filePrefix ++ path, rfl⟩
  unfold resolveSecretValue
  rw [hp, hs, slice_file]
  simp only [Bool.and_self, if_true]
  split
  · rfl
  · rcases hr : sys.readFile st.world path with ⟨r, w⟩
    cases r <;> simp [strip_newline_eq]

/-- A value without the `file(...)` form comes back as it is, the state untouched. -/
theorem resolve_literal (W : Type) (sys : Sys W) (st : St W) (v : GoString)
    (h : ¬ (filePrefix <+: v ∧ closeParen <:+ v)) :
    resolveSecretValue sys st v = some (.ok v, st) := by
  unfold resolveSecretValue
  rw [if_neg]
  simpa [hasPrefix_iff, hasSuffix_iff] using h

theorem path_of_file (path : GoString) :
    ((filePrefix ++ path ++ closeParen).drop 5).dropLast = path := by
  have h5 : filePrefix.length = 5 := rfl
  simp [List.drop_append_eq_append_drop, h5, closeParen, List.dropLast_concat]

theorem length_file (path : GoString) :
    (filePrefix ++ path ++ closeParen).length = path.length + 6 := by
  simp [filePrefix, closeParen]

/-! ## `resolveSecretValue`: the claims -/

/-- C3: for a non-empty path whose file is read successfully with contents `c`,
`resolveSecretValue("file(" + path + ")")` returns `c` without its final byte
when `c` ends with a newline and `c` itself otherwise: one trailing newline is
stripped, never more, and nothing else of `c` changes.  The only effect is the
one read of the file. -/
theorem resolveSecretValue_strips_one_newline (W : Type) (sys : Sys W) (st : St W)
    (path c : GoString) (w : W) (hpath : path ≠ [])
    (hread : sys.readFile st.world path = (.ok c, w)) :
    ∃ r, resolveSecretValue sys st (filePrefix ++ path ++ closeParen)
          = some (.ok r, st.step w (.readFile path)) ∧
      (∀ d, c = d ++ newline → r = d) ∧
      ((¬ ∃ d, c = d ++ newline) → r = c) ∧
      (∀ d, c = d ++ newline ++ newline → r = d ++ newline) := by
  refine ⟨if c.getLast? = some 10 then c.dropLast else c, ?_, ?_, ?_, ?_⟩
  · rw [resolve_file, if_neg hpath, hread]
  · rintro d rfl
    simp [newline]
  · intro h
    rw [if_neg]
    intro hl
    rcases List.eq_nil_or_concat c with rfl | ⟨d, b, rfl⟩
    · simp at hl
    · simp at hl
      exact h ⟨d, by rw [hl]; simp [newline]⟩
  · rintro d rfl
    simp [newline]

/-- C4: a raw value that does not both start with `file(` and end with `)` is
returned exactly as it is, with no error, and the state is untouched: no file
is read and no event is recorded. -/
theorem resolveSecretValue_literal_unchanged (W : Type) (sys : Sys W) (st : St W)
    (v : GoString) (h : ¬ (filePrefix <+: v ∧ closeParen <:+ v)) :
    resolveSecretValue sys st v = some (.ok v, st) :=
  resolve_literal W sys st v h

/-- C5: `resolveSecretValue` is total: it never panics, since a value with the
prefix `file(` and the suffix `)` has at least 6 bytes and the slice
`v[5 : len(v)-1]` is in bounds.  It returns an error exactly when the value has
that prefix and suffix and either the path between them is empty (the
empty-path error, the state untouched) or the read of the file at that path
fails (the file-read error with that path and the cause of the read). -/
theorem resolveSecretValue_total_and_errors (W : Type) (sys : Sys W) (st : St W)
    (v : GoString) :
    (∃ r st', resolveSecretValue sys st v = some (r, st')) ∧
    (filePrefix <+: v ∧ closeParen <:+ v →
      6 ≤ v.length ∧ slice v 5 ((v.length : Int) - 1) = some ((v.drop 5).dropLast)) ∧
    (∀ e st', resolveSecretValue sys st v = some (.error e, st') ↔
      filePrefix <+: v ∧ closeParen <:+ v ∧
        (((v.drop 5).dropLast = [] ∧ e = .emptyFilePath ∧ st' = st) ∨
         ((v.drop 5).dropLast ≠ [] ∧ ∃ cause w,
            sys.readFile st.world ((v.drop 5).dropLast) = (.error cause, w) ∧
            e = .fileReadFailed ((v.drop 5).dropLast) cause ∧
            st' = st.step w (.readFile ((v.drop 5).dropLast))))) := by
  by_cases hform : filePrefix <+: v ∧ closeParen <:+ v
  · obtain ⟨path, rfl⟩ := file_form v hform.1 hform.2
    rw [path_of_file, resolve_file]
    refine ⟨?_, ?_, ?_⟩
    · by_cases hp : path = []
      · exact ⟨_, _, by rw [if_pos hp]⟩
      · rw [if_neg hp]
        rcases hr : sys.readFile st.world path with ⟨r, w⟩
        cases r <;> exact ⟨_, _, rfl⟩
    · intro _
      exact ⟨by rw [length_file]; omega, slice_file path⟩
    · intro e st'
      by_cases hp : path = []
      · rw [if_pos hp]
        constructor
        · intro h
          simp only [Option.some.injEq, Prod.mk.injEq, Except.error.injEq] at h
          exact ⟨hform.1, hform.2, Or.inl ⟨hp, h.1.symm, h.2.symm⟩⟩
        · rintro ⟨_, _, ⟨_, rfl, rfl⟩ | ⟨hne, _⟩⟩
          · rfl
          · exact absurd hp hne
      · rw [if_neg hp]
        rcases hr : sys.readFile st.world path with ⟨r, w⟩
        cases r with
        | error cause =>
          constructor
          · intro h
            simp only [Option.some.injEq, Prod.mk.injEq, Except.error.injEq] at h
            exact ⟨hform.1, hform.2, Or.inr ⟨hp, cause, w, rfl, h.1.symm, h.2.symm⟩⟩
          · rintro ⟨_, _, ⟨he, _⟩ | ⟨_, cause', w', hr', rfl, rfl⟩⟩
            · exact absurd he hp
            · simp only [Prod.mk.injEq, Except.error.injEq] at hr'
              rw [hr'.1, hr'.2]
        | ok content =>
          constructor
          · intro h
            simp at h
          · rintro ⟨_, _, ⟨he, _⟩ | ⟨_, cause', w', hr', _⟩⟩
            · exact absurd he hp
            · simp at hr'
  · rw [resolve_literal W sys st v hform]
    refine ⟨⟨_, _, rfl⟩, fun h => absurd h hform, ?_⟩
    intro e st'
    constructor
    · intro h
      simp at h
    · rintro ⟨h1, h2, _⟩
      exact absurd ⟨h1, h2⟩ hform

/-! ## `encryptSecret` -/

theorem copyBytes_key (recipientKey : List Byte) (h : recipientKey.length = 32) :
    copyBytes (List.replicate 32 0) recipientKey = recipientKey := by
  unfold copyBytes
  rw [List.length_replicate, ← h, List.take_length]
  simp [h]

/-- `encryptSecret` on a key that does not decode. -/
theorem encrypt_undecodable (W : Type) (sys : Sys W) (st : St W) (keyStr P : GoString)
    (cause : Cause) (hd : sys.b64Decode keyStr = .error cause) :
    encryptSecret sys st keyStr P = (.error (.decodeFailed cause), st) := by
  simp [encryptSecret, hd]

/-- `encryptSecret` on a key that decodes to other than 32 bytes. -/
theorem encrypt_wrong_length (W : Type) (sys : Sys W) (st : St W) (keyStr P : GoString)
    (bs : List Byte) (hd : sys.b64Decode keyStr = .ok bs) (hl : bs.length ≠ 32) :
    encryptSecret sys st keyStr P = (.error (.invalidKeyLength bs.length), st) := by
  simp [encryptSecret, hd, hl]

/-- `encryptSecret` on a key that decodes to 32 bytes: the box is sealed for
exactly these bytes. -/
theorem encrypt_sealed (W : Type) (sys : Sys W) (st : St W) (keyStr P : GoString)
    (bs : List Byte) (hd : sys.b64Decode keyStr = .ok bs) (hl : bs.length = 32) :
    encryptSecret sys st keyStr P =
      match sys.sealAnonymous st.world P bs with
      | (.error cause, w) => (.error (.sealFailed cause), st.step w (.seal P bs))
      | (.ok sealed, w) => (.ok (sys.b64Encode sealed), st.step w (.seal P bs)) := by
  unfold encryptSecret
  rw [hd]
  simp only [ne_eq, hl, not_true_eq_false, if_false, copyBytes_key bs hl]

/-- C1: round trip of `encryptSecret`.  For collaborators that keep their
contracts (base64 decoding undoes encoding; a box sealed for the public key of
a key pair opens with its private key to the message), every plaintext `P`,
every key pair with a 32-byte public key and every outcome of the random
source for which sealing succeeds: `encryptSecret(base64(pk), P)` returns a
string whose base64 decoding is the sealed box, and that box opens with the
private key to exactly `P`. -/
theorem encryptSecret_round_trip (W : Type) (sys : Sys W)
    (openAnonymous : List Byte → List Byte → List Byte → Option (List Byte))
    (KeyPair : List Byte → List Byte → Prop)
    (hb64 : ∀ bs, sys.b64Decode (sys.b64Encode bs) = .ok bs)
    (hbox : ∀ w msg pk sk sealed w', KeyPair pk sk →
      sys.sealAnonymous w msg pk = (.ok sealed, w') → openAnonymous sealed pk sk = some msg)
    (st : St W) (P pk sk : List Byte) (hkp : KeyPair pk sk) (hlen : pk.length = 32)
    (sealed : List Byte) (w' : W)
    (hseal : sys.sealAnonymous st.world P pk = (.ok sealed, w')) :
    ∃ out, encryptSecret sys st (sys.b64Encode pk) P = (.ok out, st.step w' (.seal P pk)) ∧
      ∃ box, sys.b64Decode out = .ok box ∧ openAnonymous box pk sk = some P := by
  refine ⟨sys.b64Encode sealed, ?_, sealed, hb64 sealed, hbox _ _ _ _ _ _ hkp hseal⟩
  rw [encrypt_sealed W sys st _ P pk (hb64 pk) hlen, hseal]

/-- C2: `encryptSecret` fails with the key-length error reporting `got = n`
exactly when the key string decodes to `n` bytes with `n ≠ 32`; it then fails
with that error only and leaves the state untouched, so nothing is sealed.
Sealing is reached only for a key that decodes to exactly 32 bytes, and it is
given exactly these bytes, with the plaintext: the key is never truncated or
padded. -/
theorem encryptSecret_key_length (W : Type) (sys : Sys W) (st : St W)
    (keyStr P : GoString) :
    (∀ n st', encryptSecret sys st keyStr P = (.error (.invalidKeyLength n), st') ↔
      (∃ bs, sys.b64Decode keyStr = .ok bs ∧ bs.length = n ∧ n ≠ 32) ∧ st' = st) ∧
    (∀ bs, sys.b64Decode keyStr = .ok bs → bs.length ≠ 32 →
      encryptSecret sys st keyStr P = (.error (.invalidKeyLength bs.length), st)) ∧
    ((¬ ∃ bs, sys.b64Decode keyStr = .ok bs ∧ bs.length = 32) →
      (encryptSecret sys st keyStr P).2 = st) ∧
    (∀ bs, sys.b64Decode keyStr = .ok bs → bs.length = 32 →
      (encryptSecret sys st keyStr P).2
        = st.step (sys.sealAnonymous st.world P bs).2 (.seal P bs)) := by
  refine ⟨?_, ?_, ?_, ?_⟩
  · intro n st'
    cases hd : sys.b64Decode keyStr with
    | error cause =>
      rw [encrypt_undecodable W sys st keyStr P cause hd]
      simp
    | ok bs =>
      by_cases hl : bs.length = 32
      · rw [encrypt_sealed W sys st keyStr P bs hd hl]
        rcases hs : sys.sealAnonymous st.world P bs with ⟨r, w⟩
        cases r with
        | error c =>
          constructor
          · intro h
            simp at h
          · rintro ⟨⟨b, hb, rfl, hn⟩, _⟩
            simp only [Except.ok.injEq] at hb
            exact absurd (hb ▸ hl) hn
        | ok sealed =>
          constructor
          · intro h
            simp at h
          · rintro ⟨⟨b, hb, rfl, hn⟩, _⟩
            simp only [Except.ok.injEq] at hb
            exact absurd (hb ▸ hl) hn
      · rw [encrypt_wrong_length W sys st keyStr P bs hd hl]
        constructor
        · intro h
          simp only [Prod.mk.injEq, Except.error.injEq, EncryptError.invalidKeyLength.injEq] at h
          exact ⟨⟨bs, rfl, h.1, h.1 ▸ hl⟩, h.2.symm⟩
        · rintro ⟨⟨b, hb, rfl, _⟩, rfl⟩
          simp only [Except.ok.injEq] at hb
          rw [hb]
  · intro bs hd hl
    exact encrypt_wrong_length W sys st keyStr P bs hd hl
  · intro h
    cases hd : sys.b64Decode keyStr with
    | error cause => rw [encrypt_undecodable W sys st keyStr P cause hd]
    | ok bs =>
      have hl : bs.length ≠ 32 := fun hl => h ⟨bs, hd, hl⟩
      rw [encrypt_wrong_length W sys st keyStr P bs hd hl]
  · intro bs hd hl
    rw [encrypt_sealed W sys st keyStr P bs hd hl]
    rcases hs : sys.sealAnonymous st.world P bs with ⟨r, w⟩
    cases r <;> rfl

/-! ## The loop of `main` -/

/-- The events of `resolveSecretValue` are file reads. -/
theorem resolve_trace (W : Type) (sys : Sys W) (st : St W) (v : GoString) :
    ∃ r st1 evs, resolveSecretValue sys st v = some (r, st1) ∧
      st1.trace = st.trace ++ evs ∧ ∀ e ∈ evs, ∃ path, e = .readFile path := by
  by_cases hform : filePrefix <+: v ∧ closeParen <:+ v
  · obtain ⟨path, rfl⟩ := file_form v hform.1 hform.2
    rw [resolve_file]
    by_cases hp : path = []
    · rw [if_pos hp]
      exact ⟨_, _, [], rfl, by simp, by simp⟩
    · rw [if_neg hp]
      rcases hr : sys.readFile st.world path with ⟨r, w⟩
      cases r <;> exact ⟨_, _, [.readFile path], rfl, rfl, by simp⟩
  · rw [resolve_literal W sys st v hform]
    exact ⟨_, _, [], rfl, by simp, by simp⟩

/-- The events of `encryptSecret` are sealings. -/
theorem encrypt_trace (W : Type) (sys : Sys W) (st : St W) (keyStr P : GoString) :
    ∃ evs, (encryptSecret sys st keyStr P).2.trace = st.trace ++ evs ∧
      ∀ e ∈ evs, ∃ msg pk, e = .seal msg pk := by
  cases hd : sys.b64Decode keyStr with
  | error cause =>
    rw [encrypt_undecodable W sys st keyStr P cause hd]
    exact ⟨[], by simp, by simp⟩
  | ok bs =>
    by_cases hl : bs.length = 32
    · rw [encrypt_sealed W sys st keyStr P bs hd hl]
      rcases hs : sys.sealAnonymous st.world P bs with ⟨r, w⟩
      cases r <;> exact ⟨[.seal P bs], rfl, by simp⟩
    · rw [encrypt_wrong_length W sys st keyStr P bs hd hl]
      exact ⟨[], by simp, by simp⟩

theorem countP_reads (q : Event → Bool) (evs : List Event)
    (hq : ∀ path, q (.readFile path) = false) (h : ∀ e ∈ evs, ∃ path, e = .readFile path) :
    evs.countP q = 0 := by
  rw [List.countP_eq_zero]
  intro e he
  obtain ⟨path, rfl⟩ := h e he
  simp [hq]

theorem countP_seals (q : Event → Bool) (evs : List Event)
    (hq : ∀ msg pk, q (.seal msg pk) = false) (h : ∀ e ∈ evs, ∃ msg pk, e = .seal msg pk) :
    evs.countP q = 0 := by
  rw [List.countP_eq_zero]
  intro e he
  obtain ⟨msg, pk, rfl⟩ := h e he
  simp [hq]

/-- One iteration of the loop: it never panics, the counter goes up by one
exactly when the three stages succeed, the secret is submitted once exactly
when it resolves and encrypts, no other secret is submitted, and one line is
written for the secret. -/
theorem processSecret_step (W : Type) (sys : Sys W) (token : GoString) (cfg : Config)
    (key : PublicKey) (st : St W) (kv : GoString × GoString) :
    ∃ st' evs,
      (∀ n, processSecret sys token cfg key (n, st) kv
        = some (n + (if allStagesSucceed sys token cfg key st kv then 1 else 0), st')) ∧
      st'.trace = st.trace ++ evs ∧
      (∀ name, evs.countP (Event.isSubmitOf name)
        = if name = kv.1 ∧ resolvesAndEncrypts sys key st kv = true then 1 else 0) ∧
      (∀ name, evs.countP (Event.isLineOf name) = if name = kv.1 then 1 else 0) := by
  obtain ⟨r, st1, evs1, hr, ht1, he1⟩ := resolve_trace W sys st kv.2
  have hs1 : ∀ name, evs1.countP (Event.isSubmitOf name) = 0 := fun name =>
    countP_reads _ evs1 (fun _ => rfl) he1
  have hl1 : ∀ name, evs1.countP (Event.isLineOf name) = 0 := fun name =>
    countP_reads _ evs1 (fun _ => rfl) he1
  cases r with
  | error err =>
    simp only [processSecret, allStagesSucceed, resolvesAndEncrypts, hr]
    refine ⟨_, evs1 ++ [.logResolveFailed kv.1 err], fun n => rfl, ?_, ?_, ?_⟩
    · simp [St.step, ht1]
    · intro name
      simp [List.countP_append, hs1, Event.isSubmitOf]
    · intro name
      simp [List.countP_append, hl1, Event.isLineOf, List.countP_cons, eq_comm]
  | ok resolved =>
    obtain ⟨evs2, ht2, he2⟩ := encrypt_trace W sys st1 key.key resolved
    have hs2 : ∀ name, evs2.countP (Event.isSubmitOf name) = 0 := fun name =>
      countP_seals _ evs2 (fun _ _ => rfl) he2
    have hl2 : ∀ name, evs2.countP (Event.isLineOf name) = 0 := fun name =>
      countP_seals _ evs2 (fun _ _ => rfl) he2
    rcases hen : encryptSecret sys st1 key.key resolved with ⟨r2, st2⟩
    rw [hen] at ht2
    simp only at ht2
    cases r2 with
    | error err =>
      simp only [processSecret, allStagesSucceed, resolvesAndEncrypts, hr, hen]
      refine ⟨_, evs1 ++ evs2 ++ [.logEncryptFailed kv.1 err], fun n => rfl, ?_, ?_, ?_⟩
      · simp [St.step, ht1, ht2]
      · intro name
        simp [List.countP_append, hs1, hs2, Event.isSubmitOf]
      · intro name
        simp [List.countP_append, hl1, hl2, Event.isLineOf, List.countP_cons, eq_comm]
    | ok encrypted =>
      rcases hsub : sys.createOrUpdateRepoSecret st2.world token cfg.Owner cfg.Repo
        { Name := kv.1, KeyID := key.keyID, EncryptedValue := encrypted } with ⟨r3, w⟩
      cases r3 with
      | error cause =>
        simp only [processSecret, allStagesSucceed, resolvesAndEncrypts, hr, hen, hsub]
        refine ⟨_, evs1 ++ evs2 ++ [.createOrUpdateRepoSecret cfg.Owner cfg.Repo
            { Name := kv.1, KeyID := key.keyID, EncryptedValue := encrypted },
          .logSetFailed kv.1 cause], fun n => rfl, ?_, ?_, ?_⟩
        · simp [St.step, ht1, ht2]
        · intro name
          simp [List.countP_append, hs1, hs2, Event.isSubmitOf, List.countP_cons, eq_comm]
        · intro name
          simp [List.countP_append, hl1, hl2, Event.isLineOf, List.countP_cons, eq_comm]
      | ok u =>
        simp only [processSecret, allStagesSucceed, resolvesAndEncrypts, hr, hen, hsub]
        refine ⟨_, evs1 ++ evs2 ++ [.createOrUpdateRepoSecret cfg.Owner cfg.Repo
            { Name := kv.1, KeyID := key.keyID, EncryptedValue := encrypted },
          .printSet kv.1], fun n => rfl, ?_, ?_, ?_⟩
        · simp [St.step, ht1, ht2]
        · intro name
          simp [List.countP_append, hs1, hs2, Event.isSubmitOf, List.countP_cons, eq_comm]
        · intro name
          simp [List.countP_append, hl1, hl2, Event.isLineOf, List.countP_cons, eq_comm]

theorem batchLoop_cons (W : Type) (sys : Sys W) (token : GoString) (cfg : Config)
    (key : PublicKey) (kv : GoString × GoString) (rest : List (GoString × GoString))
    (acc acc' : Nat × St W) (h : processSecret sys token cfg key acc kv = some acc') :
    batchLoop sys token cfg key (kv :: rest) acc = batchLoop sys token cfg key rest acc' := by
  simp [batchLoop, h]

theorem batchLoop_append (W : Type) (sys : Sys W) (token : GoString) (cfg : Config)
    (key : PublicKey) (xs ys : List (GoString × GoString)) :
    ∀ acc acc' : Nat × St W, batchLoop sys token cfg key xs acc = some acc' →
      batchLoop sys token cfg key (xs ++ ys) acc = batchLoop sys token cfg key ys acc' := by
  induction xs with
  | nil =>
    intro acc acc' h
    simp only [batchLoop, Option.some.injEq] at h
    rw [List.nil_append, h]
  | cons kv rest ih =>
    intro acc acc' h
    cases hp : processSecret sys token cfg key acc kv with
    | none => simp [batchLoop, hp] at h
    | some acc1 =>
      rw [batchLoop_cons W sys token cfg key kv rest acc acc1 hp] at h
      rw [List.cons_append, batchLoop_cons W sys token cfg key kv (rest ++ ys) acc acc1 hp]
      exact ih acc1 acc' h

/-- The whole loop: it never panics and visits every secret; the counter grows
by the number of secrets whose three stages succeed; secrets that are not in
the batch are neither submitted nor reported. -/
theorem batchLoop_spec (W : Type) (sys : Sys W) (token : GoString) (cfg : Config)
    (key : PublicKey) (secrets : List (GoString × GoString)) :
    ∀ (n : Nat) (st : St W), ∃ st' evs,
      batchLoop sys token cfg key secrets (n, st)
        = some (n + (succeededSecrets sys token cfg key secrets st).length, st') ∧
      st'.trace = st.trace ++ evs ∧
      (succeededSecrets sys token cfg key secrets st).Sublist secrets ∧
      (∀ name, name ∉ secrets.map Prod.fst →
        evs.countP (Event.isSubmitOf name) = 0 ∧ evs.countP (Event.isLineOf name) = 0) ∧
      ((∀ st kv, resolvesAndEncrypts sys key st kv = false) →
        ∀ name, evs.countP (Event.isSubmitOf name) = 0) := by
  induction secrets with
  | nil =>
    intro n st
    exact ⟨st, [], by simp [batchLoop, succeededSecrets], by simp,
      by simp [succeededSecrets], by simp, by simp⟩
  | cons kv rest ih =>
    intro n st
    obtain ⟨st1, evs1, hstep, ht1, hsub1, hline1⟩ := processSecret_step W sys token cfg key st kv
    obtain ⟨st2, evs2, hloop, ht2, hsl, hout, hkey⟩ :=
      ih (n + (if allStagesSucceed sys token cfg key st kv then 1 else 0)) st1
    have hlist : succeededSecrets sys token cfg key (kv :: rest) st
        = (if allStagesSucceed sys token cfg key st kv then [kv] else [])
          ++ succeededSecrets sys token cfg key rest st1 := by
      simp only [succeededSecrets, hstep 0]
    refine ⟨st2, evs1 ++ evs2, ?_, ?_, ?_, ?_, ?_⟩
    · rw [batchLoop_cons W sys token cfg key kv rest _ _ (hstep n), hloop, hlist]
      by_cases ha : allStagesSucceed sys token cfg key st kv = true
      · simp [ha]; omega
      · simp [ha]
    · rw [ht2, ht1, List.append_assoc]
    · rw [hlist]
      by_cases ha : allStagesSucceed sys token cfg key st kv = true
      · simpa [ha] using hsl
      · simpa [ha] using hsl.cons kv
    · intro name hname
      simp only [List.map_cons, List.mem_cons, not_or] at hname
      obtain ⟨h1, h2⟩ := hout name hname.2
      rw [List.countP_append, List.countP_append, hsub1, hline1, h1, h2]
      simp [hname.1]
    · intro hbad name
      rw [List.countP_append, hsub1, hkey hbad name, hbad st kv]
      simp

theorem numSecrets_eq (cfg : Config) : cfg.numSecrets = cfg.entries.length := by
  unfold Config.numSecrets Config.entries
  cases cfg.Secrets <;> rfl

/-- With a key that does not decode to 32 bytes no secret gets past encryption. -/
theorem wrong_key_never_encrypts (W : Type) (sys : Sys W) (key : PublicKey)
    (h : ¬ ∃ bs, sys.b64Decode key.key = .ok bs ∧ bs.length = 32) (st : St W)
    (kv : GoString × GoString) : resolvesAndEncrypts sys key st kv = false := by
  unfold resolvesAndEncrypts
  obtain ⟨r, st1, _, hr, _, _⟩ := resolve_trace W sys st kv.2
  rw [hr]
  cases r with
  | error err => rfl
  | ok resolved =>
    simp only
    cases hd : sys.b64Decode key.key with
    | error cause => rw [encrypt_undecodable W sys st1 key.key resolved cause hd]
    | ok bs =>
      have hl : bs.length ≠ 32 := fun hl => h ⟨bs, hd, hl⟩
      rw [encrypt_wrong_length W sys st1 key.key resolved bs hd hl]

theorem allStages_le (W : Type) (sys : Sys W) (token : GoString) (cfg : Config)
    (key : PublicKey) (st : St W) (kv : GoString × GoString)
    (h : resolvesAndEncrypts sys key st kv = false) :
    allStagesSucceed sys token cfg key st kv = false := by
  unfold resolvesAndEncrypts at h
  unfold allStagesSucceed
  obtain ⟨r, st1, _, hr, _, _⟩ := resolve_trace W sys st kv.2
  rw [hr] at h ⊢
  cases r with
  | error err => rfl
  | ok resolved =>
    simp only at h ⊢
    rcases hen : encryptSecret sys st1 key.key resolved with ⟨r2, st2⟩
    rw [hen] at h
    cases r2 with
    | error err => rfl
    | ok enc => simp at h

theorem succeededSecrets_nil_of_never (W : Type) (sys : Sys W) (token : GoString)
    (cfg : Config) (key : PublicKey)
    (h : ∀ st kv, resolvesAndEncrypts sys key st kv = false)
    (secrets : List (GoString × GoString)) :
    ∀ st : St W, succeededSecrets sys token cfg key secrets st = [] := by
  induction secrets with
  | nil => intro st; rfl
  | cons kv rest ih =>
    intro st
    obtain ⟨st1, _, hstep, _⟩ := processSecret_step W sys token cfg key st kv
    simp only [succeededSecrets, hstep 0, allStages_le W sys token cfg key st kv (h st kv), ih st1]
    simp

/-! ## The loop of `main`: the claims -/

/-- C6: for every batch, key and behaviour of the file reads, the sealing and
the API, the loop of `main` ends; the success counter then equals the number
of secrets whose resolution, encryption and submission all succeeded; the
summary line printed after the loop reports that counter as the number set
and the number of secrets as the total (it is the `All n` line exactly when
the two are equal, the `Warning: n of total` line otherwise), so that
`0 <= succeeded <= total`; and at any point of the loop, after `k` secrets
with the rest still to come, the counter is at most `k`. -/
theorem batch_success_counter (W : Type) (sys : Sys W) (token : GoString) (cfg : Config)
    (key : PublicKey) (secrets : List (GoString × GoString)) (st : St W)
    (hrange : secrets.Perm cfg.entries) :
    ∃ n st', batchLoop sys token cfg key secrets (0, st) = some (n, st') ∧
      n = (succeededSecrets sys token cfg key secrets st).length ∧
      (succeededSecrets sys token cfg key secrets st).Sublist secrets ∧
      (∃ line, runBatch sys token cfg key secrets st = some (n, st'.step st'.world line) ∧
        line.reportedSucceeded = some n ∧
        line.reportedTotal = some secrets.length ∧
        (n = secrets.length → line = .printAll secrets.length) ∧
        (n ≠ secrets.length → line = .printWarning n secrets.length)) ∧
      0 ≤ n ∧ n ≤ secrets.length ∧
      ∀ k, k ≤ secrets.length → ∃ m stk,
        batchLoop sys token cfg key (secrets.take k) (0, st) = some (m, stk) ∧
        batchLoop sys token cfg key secrets (0, st)
          = batchLoop sys token cfg key (secrets.drop k) (m, stk) ∧
        m ≤ k := by
  obtain ⟨st', evs, hloop, _, hsl, _, _⟩ := batchLoop_spec W sys token cfg key secrets 0 st
  rw [Nat.zero_add] at hloop
  refine ⟨_, st', hloop, rfl, hsl, ?_, Nat.zero_le _, hsl.length_le, ?_⟩
  · refine ⟨summary (succeededSecrets sys token cfg key secrets st).length secrets.length,
      ?_, ?_, ?_, ?_, ?_⟩
    · unfold runBatch
      rw [hloop, numSecrets_eq, hrange.length_eq]
    · unfold summary
      split <;> rfl
    · unfold summary
      split
      · rename_i heq
        rw [← heq]
        rfl
      · rfl
    · intro heq
      unfold summary
      rw [if_pos heq, heq]
    · intro hne
      unfold summary
      rw [if_neg hne]
  · intro k hk
    obtain ⟨stk, _, hk1, _, hk2, _, _⟩ :=
      batchLoop_spec W sys token cfg key (secrets.take k) 0 st
    rw [Nat.zero_add] at hk1
    refine ⟨_, stk, hk1, ?_, ?_⟩
    · have := batchLoop_append W sys token cfg key (secrets.take k) (secrets.drop k) _ _ hk1
      rwa [List.take_append_drop] at this
    have := hk2.length_le
    rw [List.length_take] at this
    omega

/-- C7 (amended): partial failure of the loop of `main`.  For every batch with
distinct names and every secret `kv` of it, whatever comes before (`pre`) and
after (`post`): the loop reaches `kv`, runs to its end, ends exactly one
iteration for `kv`, and submits `kv` exactly once when its own resolution and
encryption succeed and not at all otherwise.  The key is the one key of the
whole batch: when it does not decode to 32 bytes (a key of length 31), no
secret is submitted and the counter stays 0. -/
theorem batch_partial_failure (W : Type) (sys : Sys W) (token : GoString) (cfg : Config)
    (key : PublicKey) (pre post : List (GoString × GoString)) (kv : GoString × GoString)
    (st : St W) (hnodup : ((pre ++ kv :: post).map Prod.fst).Nodup) :
    ∃ n stk m st',
      batchLoop sys token cfg key pre (0, st) = some (n, stk) ∧
      batchLoop sys token cfg key (pre ++ kv :: post) (0, st) = some (m, st') ∧
      iterations kv.1 st'.trace = iterations kv.1 st.trace + 1 ∧
      submissions kv.1 st'.trace = submissions kv.1 st.trace
        + (if resolvesAndEncrypts sys key stk kv then 1 else 0) ∧
      ((¬ ∃ bs, sys.b64Decode key.key = .ok bs ∧ bs.length = 32) →
        m = 0 ∧ ∀ name, submissions name st'.trace = submissions name st.trace) := by
  have hpre : kv.1 ∉ pre.map Prod.fst := by
    intro hmem
    rw [List.map_append, List.map_cons, List.nodup_append] at hnodup
    exact hnodup.2.2 hmem (List.mem_cons_self _ _)
  have hpost : kv.1 ∉ post.map Prod.fst := by
    rw [List.map_append, List.map_cons, List.nodup_append] at hnodup
    exact (List.nodup_cons.1 hnodup.2.1).1
  obtain ⟨stk, evs1, h1, ht1, _, hout1, _⟩ := batchLoop_spec W sys token cfg key pre 0 st
  obtain ⟨st2, evs2, hstep, ht2, hsub2, hline2⟩ := processSecret_step W sys token cfg key stk kv
  obtain ⟨st3, evs3, h3, ht3, _, hout3, _⟩ := batchLoop_spec W sys token cfg key post
    (0 + (succeededSecrets sys token cfg key pre st).length
      + (if allStagesSucceed sys token cfg key stk kv then 1 else 0)) st2
  obtain ⟨st4, evs4, h4, ht4, _, _, hkey4⟩ :=
    batchLoop_spec W sys token cfg key (pre ++ kv :: post) 0 st
  obtain ⟨m, hall⟩ : ∃ m, batchLoop sys token cfg key (pre ++ kv :: post) (0, st)
      = some (m, st3) := by
    rw [batchLoop_append W sys token cfg key pre (kv :: post) _ _ h1,
      batchLoop_cons W sys token cfg key kv post _ _ (hstep _), h3]
    exact ⟨_, rfl⟩
  have hst : st4 = st3 := by
    rw [h4] at hall
    simp only [Option.some.injEq, Prod.mk.injEq] at hall
    exact hall.2
  refine ⟨_, stk, m, st3, h1, hall, ?_, ?_, ?_⟩
  · unfold iterations
    rw [ht3, ht2, ht1, List.countP_append, List.countP_append, List.countP_append,
      (hout1 kv.1 hpre).2, (hout3 kv.1 hpost).2, hline2]
    simp
  · unfold submissions
    rw [ht3, ht2, ht1, List.countP_append, List.countP_append, List.countP_append,
      (hout1 kv.1 hpre).1, (hout3 kv.1 hpost).1, hsub2]
    by_cases hre : resolvesAndEncrypts sys key stk kv = true <;> simp [hre]
  · intro hbad
    have hnever := wrong_key_never_encrypts W sys key hbad
    constructor
    · have hs := succeededSecrets_nil_of_never W sys token cfg key hnever (pre ++ kv :: post) st
      rw [h4] at hall
      simp only [Option.some.injEq, Prod.mk.injEq] at hall
      rw [← hall.1, hs]
      rfl
    · intro name
      unfold submissions
      rw [← hst, ht4, List.countP_append, hkey4 hnever name]
      rfl

/-! ## The start of `main` -/

theorem get_set_self (m : GoMap) (k v : GoString) : (m.set k v).get k = some v := by
  unfold GoMap.set GoMap.get
  by_cases h : m.any (fun e => decide (e.1 = k)) = true
  · rw [if_pos h]
    induction m with
    | nil => simp at h
    | cons e rest ih =>
      by_cases he : e.1 = k
      · simp [he]
      · have hrest : rest.any (fun e => decide (e.1 = k)) = true := by
          simpa [he] using h
        simpa [he, List.find?_cons] using ih hrest
  · rw [if_neg h]
    have hnone : m.find? (fun e => decide (e.1 = k)) = none := by
      rw [List.find?_eq_none]
      intro e he hk
      exact h (List.any_eq_true.2 ⟨e, he, hk⟩)
    simp [List.find?_append, hnone]

theorem get_set_ne (m : GoMap) (k v k' : GoString) (hne : k' ≠ k) :
    (m.set k v).get k' = m.get k' := by
  unfold GoMap.set GoMap.get
  by_cases h : m.any (fun e => decide (e.1 = k)) = true
  · rw [if_pos h]
    clear h
    induction m with
    | nil => rfl
    | cons e rest ih =>
      rw [List.map_cons, List.find?_cons, List.find?_cons]
      by_cases he : e.1 = k
      · have hk : ¬ k = k' := fun hk => hne hk.symm
        have hek : ¬ e.1 = k' := fun h' => hne (h'.symm.trans he)
        rw [if_pos he]
        simp only [hk, hek, decide_False]
        exact ih
      · rw [if_neg he]
        by_cases hek : e.1 = k'
        · simp only [hek, decide_True]
        · simp only [hek, decide_False]
          exact ih
  · rw [if_neg h]
    have hk : ¬ k = k' := fun hk => hne hk.symm
    simp [List.find?_append, hk]

theorem mem_set (m : GoMap) (k v : GoString) (e : GoString × GoString) :
    e ∈ m.set k v ↔ (e ∈ m ∧ e.1 ≠ k) ∨ (e = (k, v)) := by
  unfold GoMap.set
  by_cases h : m.any (fun e => decide (e.1 = k)) = true
  · rw [if_pos h, List.mem_map]
    obtain ⟨x, hx, hxk⟩ := List.any_eq_true.1 h
    simp only [decide_eq_true_eq] at hxk
    constructor
    · rintro ⟨a, ha, rfl⟩
      by_cases hak : a.1 = k
      · right; simp [hak]
      · left; simp [hak, ha]
    · rintro (⟨he, hek⟩ | rfl)
      · exact ⟨e, he, by simp [hek]⟩
      · exact ⟨x, hx, by simp [hxk]⟩
  · rw [if_neg h, List.mem_append, List.mem_singleton]
    constructor
    · rintro (he | rfl)
      · left
        refine ⟨he, fun hek => h (List.any_eq_true.2 ⟨e, he, by simpa using hek⟩)⟩
      · right; rfl
    · rintro (⟨he, _⟩ | rfl)
      · exact Or.inl he
      · exact Or.inr rfl

theorem keys_set (m : GoMap) (k v : GoString) :
    (m.set k v).map Prod.fst
      = if m.any (fun e => decide (e.1 = k)) then m.map Prod.fst else m.map Prod.fst ++ [k] := by
  unfold GoMap.set
  by_cases h : m.any (fun e => decide (e.1 = k)) = true
  · rw [if_pos h, if_pos h, List.map_map]
    apply List.map_congr_left
    intro e _
    by_cases he : e.1 = k <;> simp [he]
  · rw [if_neg h, if_neg h]
    simp

theorem nodup_set (m : GoMap) (k v : GoString) (h : (m.map Prod.fst).Nodup) :
    ((m.set k v).map Prod.fst).Nodup := by
  rw [keys_set]
  by_cases ha : m.any (fun e => decide (e.1 = k)) = true
  · rw [if_pos ha]; exact h
  · rw [if_neg ha]
    refine List.Nodup.append h (List.nodup_singleton k) ?_
    intro x hx hk
    rw [List.mem_singleton] at hk
    subst hk
    obtain ⟨e, he, hek⟩ := List.mem_map.1 hx
    exact ha (List.any_eq_true.2 ⟨e, he, by simpa using hek⟩)

theorem loadStep_trace (W : Type) (sys : Sys W) (flags : Flags) (st : St W) :
    (loadStep sys flags st).2.trace = st.trace ∨
    (loadStep sys flags st).2.trace = st.trace ++ [.readConfig flags.configPath] := by
  unfold loadStep
  by_cases h : flags.configPath = []
  · left; simp [h]
  · right
    simp only [ne_eq, h, not_false_eq_true, if_true, loadConfig]
    rcases sys.readFile st.world flags.configPath with ⟨r, w⟩
    cases r with
    | error c => rfl
    | ok data =>
      simp only
      cases sys.yamlUnmarshal data <;> rfl

theorem mergeFlagSecret_error (flags : Flags) (cfg : Config) (f : Fatal)
    (h : mergeFlagSecret flags cfg = .error f) : f = .secretValuePair := by
  unfold mergeFlagSecret at h
  split at h
  · simp at h
  · split at h
    · simp only [Except.error.injEq] at h
      exact h.symm
    · simp at h

theorem mergeFlagSecret_ok (flags : Flags) (cfg cfg2 : Config)
    (h : mergeFlagSecret flags cfg = .ok cfg2) :
    cfg2.Owner = cfg.Owner ∧ cfg2.Repo = cfg.Repo ∧ cfg2.Token = cfg.Token ∧
      ((flags.secret ≠ [] ∧ flags.value ≠ []) ∨ (flags.secret = [] ∧ flags.value = [])) := by
  unfold mergeFlagSecret at h
  split at h
  · rename_i hb
    simp only [Except.ok.injEq] at h
    subst h
    exact ⟨rfl, rfl, rfl, Or.inl hb⟩
  · split at h
    · simp at h
    · rename_i h1 h2
      simp only [Except.ok.injEq] at h
      subst h
      refine ⟨rfl, rfl, rfl, Or.inr ?_⟩
      simp only [ne_eq, not_or, not_not] at h2
      exact h2

theorem mergeConfigSecret_fields (cfg : Config) :
    (mergeConfigSecret cfg).Owner = cfg.Owner ∧ (mergeConfigSecret cfg).Repo = cfg.Repo ∧
      (mergeConfigSecret cfg).Token = cfg.Token := by
  unfold mergeConfigSecret
  split <;> exact ⟨rfl, rfl, rfl⟩

theorem applyFlagOverrides_token (flags : Flags) (cfg : Config) :
    (applyFlagOverrides flags cfg).Token = if flags.token ≠ [] then flags.token else cfg.Token := by
  unfold applyFlagOverrides
  by_cases h1 : flags.owner = [] <;> by_cases h2 : flags.repo = [] <;>
    by_cases h3 : flags.token = [] <;> simp [h1, h2, h3]

/-- C8: startup validation is fatal before any work is done.  Whatever config
was loaded, when after the flag overrides owner or repo is empty, or the
merged secrets are empty, or no token comes from the flag, the config or
`GITHUB_TOKEN`, or exactly one of `-secret` and `-value` is given, `main` ends
with a fatal error that is not the one of the key fetch, in the state it had
after loading the config: the only event is the read of the config file, so no
API call is made and nothing is resolved, sealed or submitted. -/
theorem main_fatal_before_any_work (W : Type) (sys : Sys W) (flags : Flags) (st : St W)
    (cfg0 : Config) (st0 : St W) (hload : loadStep sys flags st = (.ok cfg0, st0))
    (hbad : (applyFlagOverrides flags cfg0).Owner = [] ∨
      (applyFlagOverrides flags cfg0).Repo = [] ∨
      (∃ cfg2, mergeFlagSecret flags (applyFlagOverrides flags cfg0) = .ok cfg2 ∧
        (mergeConfigSecret cfg2).numSecrets = 0) ∨
      (flags.token = [] ∧ cfg0.Token = [] ∧ sys.getenvToken st0.world = []) ∨
      ((flags.secret ≠ [] ∧ flags.value = []) ∨ (flags.secret = [] ∧ flags.value ≠ []))) :
    ∃ f, main sys flags st = some (.error f, st0) ∧
      (∀ cause, f ≠ .getPublicKey cause) ∧
      (st0.trace = st.trace ∨ st0.trace = st.trace ++ [.readConfig flags.configPath]) ∧
      (∀ e ∈ st0.trace, e ∈ st.trace ∨ (e.isAPICall = false ∧ e.isSecretWork = false)) := by
  have htr := loadStep_trace W sys flags st
  rw [hload] at htr
  have hev : ∀ e ∈ st0.trace, e ∈ st.trace ∨ (e.isAPICall = false ∧ e.isSecretWork = false) := by
    intro e he
    rcases htr with h | h
    · left; rwa [h] at he
    · rw [h, List.mem_append, List.mem_singleton] at he
      rcases he with he | rfl
      · exact Or.inl he
      · exact Or.inr ⟨rfl, rfl⟩
  unfold main startup
  rw [hload]
  simp only
  cases hm : mergeFlagSecret flags (applyFlagOverrides flags cfg0) with
  | error f =>
    refine ⟨f, rfl, ?_, htr, hev⟩
    rw [mergeFlagSecret_error _ _ _ hm]
    intro cause h
    cases h
  | ok cfg2 =>
    obtain ⟨ho, hr, ht, hpair⟩ := mergeFlagSecret_ok _ _ _ hm
    obtain ⟨ho', hr', ht'⟩ := mergeConfigSecret_fields cfg2
    simp only
    by_cases hv1 : (mergeConfigSecret cfg2).Owner = [] ∨ (mergeConfigSecret cfg2).Repo = []
    · refine ⟨.missingOwnerRepo, by simp [validate, hv1], ?_, htr, hev⟩
      intro cause h
      cases h
    · by_cases hv2 : (mergeConfigSecret cfg2).numSecrets = 0
      · refine ⟨.noSecrets, by simp [validate, hv1, hv2], ?_, htr, hev⟩
        intro cause h
        cases h
      · by_cases htok : (if (mergeConfigSecret cfg2).Token = [] then sys.getenvToken st0.world
            else (mergeConfigSecret cfg2).Token) = []
        · refine ⟨.noToken, by simp [validate, hv1, hv2, determineToken, htok], ?_, htr, hev⟩
          intro cause h
          cases h
        · exfalso
          rcases hbad with h | h | ⟨c, hc, hn⟩ | ⟨h1, h2, h3⟩ | h | h
          · exact hv1 (Or.inl (by rw [ho', ho, h]))
          · exact hv1 (Or.inr (by rw [hr', hr, h]))
          · rw [hm] at hc
            simp only [Except.ok.injEq] at hc
            subst hc
            exact hv2 hn
          · apply htok
            have : (mergeConfigSecret cfg2).Token = [] := by
              rw [ht', ht, applyFlagOverrides_token]
              simp [h1, h2]
            rw [if_pos this, h3]
          · rcases hpair with hp | hp
            · exact hp.2 h.2
            · exact h.1 hp.1
          · rcases hpair with hp | hp
            · exact hp.1 h.1
            · exact h.2 hp.2

/-- C9: the single secret of the command line is merged into the secrets of
the config, not put in their place.  With `-secret N` and `-value V` both
non-empty, after the merge step the map holds `N -> V`, every entry of the
config's map whose name differs from `N` with its value unchanged, and nothing
else; no other field of the config changes; a config without a secrets map
gets a new map holding only `N -> V`. -/
theorem mergeFlagSecret_merges (flags : Flags) (cfg : Config)
    (hN : flags.secret ≠ []) (hV : flags.value ≠ []) :
    ∃ m, mergeFlagSecret flags cfg = .ok { cfg with Secrets := some m } ∧
      m.get flags.secret = some flags.value ∧
      (∀ k, k ≠ flags.secret → m.get k = cfg.entries.get k) ∧
      (∀ e, e ∈ m ↔ (e ∈ cfg.entries ∧ e.1 ≠ flags.secret) ∨ e = (flags.secret, flags.value)) ∧
      ((cfg.entries.map Prod.fst).Nodup → (m.map Prod.fst).Nodup) ∧
      (cfg.Secrets = none → m = [(flags.secret, flags.value)]) := by
  refine ⟨cfg.entries.set flags.secret flags.value, ?_, get_set_self _ _ _,
    fun k hk => get_set_ne _ _ _ k hk, fun e => mem_set _ _ _ e, nodup_set _ _ _, ?_⟩
  · unfold mergeFlagSecret
    rw [if_pos ⟨hN, hV⟩]
    unfold setSecret Config.entries
    cases cfg.Secrets <;> rfl
  · intro hnil
    unfold Config.entries
    rw [hnil]
    rfl

/-- The value the batch gets for the name `N` of `-secret N -value V`: it is
`V`, unless the deprecated single secret of the config has the name `N` and a
non-empty value, which then wins, since it is merged after the flags. -/
theorem merged_flag_secret_value (flags : Flags) (cfg : Config)
    (hN : flags.secret ≠ []) (hV : flags.value ≠ []) :
    ∃ cfg2, mergeFlagSecret flags cfg = .ok cfg2 ∧
      (mergeConfigSecret cfg2).entries.get flags.secret
        = some (if cfg.Secret = flags.secret ∧ cfg.Value ≠ [] then cfg.Value
            else flags.value) := by
  refine ⟨{ cfg with Secrets := setSecret cfg.Secrets flags.secret flags.value }, ?_, ?_⟩
  · unfold mergeFlagSecret
    rw [if_pos ⟨hN, hV⟩]
  · have hset : ∀ (o : Option GoMap) (k v : GoString), ∃ m, setSecret o k v = some m ∧
        m.get k = some v ∧ ∀ k', k' ≠ k → m.get k' = (o.getD []).get k' := by
      intro o k v
      cases o with
      | none => exact ⟨_, rfl, get_set_self _ _ _, fun k' hk => get_set_ne _ _ _ k' hk⟩
      | some m0 => exact ⟨_, rfl, get_set_self _ _ _, fun k' hk => get_set_ne _ _ _ k' hk⟩
    obtain ⟨m1, hm1, hget1, _⟩ := hset cfg.Secrets flags.secret flags.value
    unfold mergeConfigSecret
    simp only [hm1]
    by_cases hleg : cfg.Secret ≠ [] ∧ cfg.Value ≠ []
    · rw [if_pos hleg]
      obtain ⟨m2, hm2, hget2, hother2⟩ := hset (some m1) cfg.Secret cfg.Value
      simp only [Config.entries, hm2]
      by_cases hsame : cfg.Secret = flags.secret
      · rw [if_pos ⟨hsame, hleg.2⟩, ← hsame, hget2]
      · rw [if_neg (fun h => hsame h.1), hother2 _ (fun h => hsame h.symm)]
        exact hget1
    · rw [if_neg hleg, if_neg]
      · exact hget1
      · rintro ⟨hsame, hval⟩
        exact hleg ⟨hsame ▸ hN, hval⟩

/-! ## The reference instance keeps the contracts of the libraries -/

theorem stdValue_stdChar (i : Nat) (h : i < 64) : stdValue (stdChar i) = some i := by
  have : ∀ j : Fin 64, stdValue (stdChar j.val) = some j.val := by decide
  exact this ⟨i, h⟩

theorem stdChar_ne_pad (i : Nat) (h : i < 64) : stdChar i ≠ padChar := by
  have : ∀ j : Fin 64, stdChar j.val ≠ padChar := by decide
  exact this ⟨i, h⟩

theorem stdChar_ne_newline (i : Nat) (h : i < 64) : stdChar i ≠ 10 ∧ stdChar i ≠ 13 := by
  have : ∀ j : Fin 64, stdChar j.val ≠ 10 ∧ stdChar j.val ≠ 13 := by decide
  exact this ⟨i, h⟩

theorem byte_ofNat (a : Byte) (n : Nat) (h : n = a.val) : (Fin.ofNat n : Byte) = a := by
  subst h
  apply Fin.ext
  simp [Fin.ofNat]

theorem stdEncode_filter (bs : List Byte) :
    (stdEncode bs).filter (fun c => decide (c ≠ 10 ∧ c ≠ 13)) = stdEncode bs := by
  rw [List.filter_eq_self]
  induction bs using stdEncode.induct with
  | case1 => simp [stdEncode]
  | case2 a =>
    intro c hc
    simp only [stdEncode, List.mem_cons, List.mem_singleton, List.not_mem_nil, or_false] at hc
    rcases hc with rfl | rfl | rfl | rfl
    · simpa using stdChar_ne_newline _ (by omega)
    · simpa using stdChar_ne_newline _ (by omega)
    · decide
    · decide
  | case3 a b =>
    intro c hc
    simp only [stdEncode, List.mem_cons, List.mem_singleton, List.not_mem_nil, or_false] at hc
    rcases hc with rfl | rfl | rfl | rfl
    · simpa using stdChar_ne_newline _ (by omega)
    · simpa using stdChar_ne_newline _ (by omega)
    · simpa using stdChar_ne_newline _ (by omega)
    · decide
  | case4 a b c rest ih =>
    intro x hx
    simp only [stdEncode, List.mem_cons] at hx
    rcases hx with rfl | rfl | rfl | rfl | hx
    · simpa using stdChar_ne_newline _ (by omega)
    · simpa using stdChar_ne_newline _ (by omega)
    · simpa using stdChar_ne_newline _ (by omega)
    · simpa using stdChar_ne_newline _ (by omega)
    · exact ih x hx

theorem stdDecodeGroups_stdEncode (bs : List Byte) :
    stdDecodeGroups (stdEncode bs) = .ok bs := by
  induction bs using stdEncode.induct with
  | case1 => rfl
  | case2 a =>
    simp only [stdEncode, stdDecodeGroups]
    rw [stdValue_stdChar _ (by omega), stdValue_stdChar _ (by omega)]
    simp only [and_self, if_true]
    rw [byte_ofNat a _ (by omega)]
  | case3 a b =>
    simp only [stdEncode, stdDecodeGroups]
    rw [stdValue_stdChar _ (by omega), stdValue_stdChar _ (by omega)]
    simp only [if_neg (stdChar_ne_pad _ (show b.val % 16 * 4 < 64 by omega))]
    rw [stdValue_stdChar _ (by omega)]
    simp only [if_true]
    rw [byte_ofNat a _ (by omega), byte_ofNat b _ (by omega)]
  | case4 a b c rest ih =>
    simp only [stdEncode, stdDecodeGroups]
    rw [stdValue_stdChar _ (by omega), stdValue_stdChar _ (by omega)]
    simp only [if_neg (stdChar_ne_pad _ (show b.val % 16 * 4 + c.val / 64 < 64 by omega))]
    rw [stdValue_stdChar _ (by omega)]
    simp only [if_neg (stdChar_ne_pad _ (show c.val % 64 < 64 by omega))]
    rw [stdValue_stdChar _ (by omega), ih]
    simp only
    rw [byte_ofNat a _ (by omega), byte_ofNat b _ (by omega), byte_ofNat c _ (by omega)]

/-- Decoding undoes encoding. -/
theorem stdDecode_stdEncode (bs : List Byte) : stdDecode (stdEncode bs) = .ok bs := by
  rw [stdDecode, stdEncode_filter, stdDecodeGroups_stdEncode]

theorem boxShared_comm (a b : List Byte) :
    boxShared a (boxPublic b) = boxShared b (boxPublic a) := by
  unfold boxShared boxPublic
  induction a generalizing b with
  | nil => cases b <;> simp
  | cons x xs ih =>
    cases b with
    | nil => simp
    | cons y ys =>
      simp only [List.map_cons, List.zipWith_cons_cons, List.sum_cons, ih ys]
      ring

/-- A box sealed for the public key of `sk` opens with `sk` to the message. -/
theorem boxOpen_boxSeal (esk msg sk : List Byte) (hesk : esk.length = 32) :
    boxOpen (boxSeal esk msg (boxPublic sk)) (boxPublic sk) sk = some msg := by
  have hepk : (boxPublic esk).length = 32 := by simp [boxPublic, hesk]
  have hlen : (boxSeal esk msg (boxPublic sk)).length = 32 + msg.length + 16 := by
    simp [boxSeal, boxTag, hepk]
    omega
  have htake : (boxSeal esk msg (boxPublic sk)).take 32 = boxPublic esk := by
    simp [boxSeal, List.take_append_eq_append_take, hepk]
  unfold boxOpen
  rw [if_neg (by rw [hlen]; omega)]
  simp only [htake, boxShared_comm sk esk]
  have hct : ((boxSeal esk msg (boxPublic sk)).drop 32).take
      ((boxSeal esk msg (boxPublic sk)).length - 48)
      = msg.map fun b => b + boxKey (boxShared esk (boxPublic sk)) (boxPublic esk) (boxPublic sk) := by
    rw [hlen]
    simp [boxSeal, List.drop_append_eq_append_drop, List.take_append_eq_append_take, hepk]
  have htag : (boxSeal esk msg (boxPublic sk)).drop ((boxSeal esk msg (boxPublic sk)).length - 16)
      = boxTag (boxKey (boxShared esk (boxPublic sk)) (boxPublic esk) (boxPublic sk))
          (msg.map fun b => b + boxKey (boxShared esk (boxPublic sk)) (boxPublic esk) (boxPublic sk)) := by
    rw [hlen]
    simp [boxSeal, List.drop_append_eq_append_drop, hepk]
  rw [hct, htag, if_pos rfl, List.map_map]
  have hid : ((fun b : Byte => b - boxKey (boxShared esk (boxPublic sk)) (boxPublic esk)
      (boxPublic sk)) ∘ fun b => b + boxKey (boxShared esk (boxPublic sk)) (boxPublic esk)
      (boxPublic sk)) = id := by
    funext b
    simp
  rw [hid, List.map_id]

/-- The contract of the sealed box in the reference instance. -/
theorem refSys_box (docs : List (List Byte × Config)) (w : World) (msg pk sk sealed : List Byte)
    (w' : World) (hkp : pk = boxPublic sk)
    (h : (refSys docs).sealAnonymous w msg pk = (.ok sealed, w')) :
    boxOpen sealed pk sk = some msg := by
  subst hkp
  simp only [refSys] at h
  split at h
  · simp at h
  · simp at h
  · rename_i esk rest _
    by_cases hl : esk.length = 32
    · rw [if_pos hl] at h
      simp only [Prod.mk.injEq, Except.ok.injEq] at h
      rw [← h.1]
      exact boxOpen_boxSeal esk msg sk hl
    · rw [if_neg hl] at h
      simp at h

/-! ## The claims at concrete inputs -/

set_option maxRecDepth 1000000

/-- C1 at the reference instance: the key pair `repoPublic`, `repoPrivate`, the
plaintext `hunter2` and the random draw `draw 1`. -/
theorem encryptSecret_round_trip_witness :
    ∃ out, encryptSecret (refSys []) ⟨goodWorld, []⟩ (stdEncode repoPublic) (lit "hunter2")
        = (.ok out, (⟨goodWorld, []⟩ : St World).step
            { goodWorld with random := [some (draw 2), some (draw 3)] }
            (.seal (lit "hunter2") repoPublic)) ∧
      ∃ box, stdDecode out = .ok box ∧
        boxOpen box repoPublic repoPrivate = some (lit "hunter2") :=
  encryptSecret_round_trip World (refSys []) boxOpen (fun pk sk => pk = boxPublic sk)
    stdDecode_stdEncode
    (fun w msg pk sk sealed w' hkp h => refSys_box [] w msg pk sk sealed w' hkp h)
    ⟨goodWorld, []⟩ (lit "hunter2") repoPublic repoPrivate rfl (by decide)
    (boxSeal (draw 1) (lit "hunter2") repoPublic)
    { goodWorld with random := [some (draw 2), some (draw 3)] } (by decide)

/-- C2 at concrete keys: a 31-byte key gives the key-length error with `got =
31` and seals nothing; text that is not base64 gives the decoding error. -/
theorem encryptSecret_key_length_examples :
    encryptSecret (refSys []) ⟨goodWorld, []⟩ shortKey.key (lit "hunter2")
      = (.error (.invalidKeyLength 31), ⟨goodWorld, []⟩) ∧
    encryptSecret (refSys []) ⟨goodWorld, []⟩ (lit "not base64!") (lit "hunter2")
      = (.error (.decodeFailed corruptInput), ⟨goodWorld, []⟩) := by
  decide

/-- C3 at the file `/tmp/x` holding `abc` and two newlines: `abc` and one
newline come back. -/
theorem resolveSecretValue_strips_one_newline_witness :
    lit "/tmp/x" ≠ [] ∧
    (refSys []).readFile fileWorld (lit "/tmp/x") = (.ok (lit "abc\n\n"), fileWorld) ∧
    (∃ r, resolveSecretValue (refSys []) ⟨fileWorld, []⟩
          (filePrefix ++ lit "/tmp/x" ++ closeParen)
          = some (.ok r, (⟨fileWorld, []⟩ : St World).step fileWorld (.readFile (lit "/tmp/x"))) ∧
        r = lit "abc\n") ∧
    resolveSecretValue (refSys []) ⟨fileWorld, []⟩ (lit "file(/tmp/x)")
      = some (.ok (lit "abc\n"), ⟨fileWorld, [.readFile (lit "/tmp/x")]⟩) := by
  refine ⟨by decide, by decide, ?_, by decide⟩
  obtain ⟨r, hr, _, _, h2⟩ := resolveSecretValue_strips_one_newline World (refSys [])
    ⟨fileWorld, []⟩ (lit "/tmp/x") (lit "abc\n\n") fileWorld (by decide) (by decide)
  exact ⟨r, hr, h2 (lit "abc") (by decide)⟩

/-- C4 at the four values of the claim. -/
theorem resolveSecretValue_literal_unchanged_witness :
    resolveSecretValue (refSys []) ⟨fileWorld, []⟩ (lit "plain-literal")
      = some (.ok (lit "plain-literal"), ⟨fileWorld, []⟩) ∧
    resolveSecretValue (refSys []) ⟨fileWorld, []⟩ (lit "file(")
      = some (.ok (lit "file("), ⟨fileWorld, []⟩) ∧
    resolveSecretValue (refSys []) ⟨fileWorld, []⟩ (lit "file(x")
      = some (.ok (lit "file(x"), ⟨fileWorld, []⟩) ∧
    resolveSecretValue (refSys []) ⟨fileWorld, []⟩ (lit " file(x)")
      = some (.ok (lit " file(x)"), ⟨fileWorld, []⟩) :=
  ⟨resolveSecretValue_literal_unchanged World (refSys []) _ _
      (by rw [← hasPrefix_iff, ← hasSuffix_iff]; decide),
    resolveSecretValue_literal_unchanged World (refSys []) _ _
      (by rw [← hasPrefix_iff, ← hasSuffix_iff]; decide),
    resolveSecretValue_literal_unchanged World (refSys []) _ _
      (by rw [← hasPrefix_iff, ← hasSuffix_iff]; decide),
    resolveSecretValue_literal_unchanged World (refSys []) _ _
      (by rw [← hasPrefix_iff, ← hasSuffix_iff]; decide)⟩

/-- C5 at concrete values: `file()` gives the empty-path error and reads
nothing, a missing file gives the file-read error with its path. -/
theorem resolveSecretValue_errors_examples :
    resolveSecretValue (refSys []) ⟨fileWorld, []⟩ (lit "file()")
      = some (.error .emptyFilePath, ⟨fileWorld, []⟩) ∧
    resolveSecretValue (refSys []) ⟨fileWorld, []⟩ (lit "file(/nonexistent)")
      = some (.error (.fileReadFailed (lit "/nonexistent")
            (lit "open /nonexistent: no such file or directory")),
          ⟨fileWorld, [.readFile (lit "/nonexistent")]⟩) := by
  decide

/-- C6 at `threeSecrets` in `roughWorld`: `B` fails at resolution (its file is
missing), the API refuses `C`, `A` passes the three stages; the counter ends
at 1 and the summary line is `Warning: 1 of 3 secrets set successfully`. -/
theorem batch_success_counter_witness :
    threeSecrets.Perm batchConfig.entries ∧
    (∃ n st' line, batchLoop (refSys []) (lit "t0") batchConfig repoKey threeSecrets
          (0, ⟨roughWorld, []⟩) = some (n, st') ∧
        n = (succeededSecrets (refSys []) (lit "t0") batchConfig repoKey threeSecrets
          ⟨roughWorld, []⟩).length ∧
        runBatch (refSys []) (lit "t0") batchConfig repoKey threeSecrets ⟨roughWorld, []⟩
          = some (n, st'.step st'.world line) ∧
        line.reportedSucceeded = some n ∧
        line.reportedTotal = some 3 ∧
        n ≤ 3) ∧
    succeededSecrets (refSys []) (lit "t0") batchConfig repoKey threeSecrets ⟨roughWorld, []⟩
      = [(lit "A", lit "alpha")] ∧
    (runBatch (refSys []) (lit "t0") batchConfig repoKey threeSecrets ⟨roughWorld, []⟩).map
      (fun r => (r.1, r.2.trace.getLast?)) = some (1, some (.printWarning 1 3)) := by
  refine ⟨List.Perm.refl _, ?_, by decide, by decide⟩
  obtain ⟨n, st', h1, h2, _, ⟨line, h3, h5, h6, _⟩, _, h4, _⟩ :=
    batch_success_counter World (refSys [])
      (lit "t0") batchConfig repoKey threeSecrets ⟨roughWorld, []⟩ (List.Perm.refl _)
  exact ⟨n, st', line, h1, h2, h3, h5, h6, h4⟩

/-- C7 (amended) at `threeSecrets` in `sealFailsWorld`: `A` valid, `B` failing
at encryption because the random source fails when its box is sealed, `C`
valid.  The run reports 2 of 3; `A` and `C` are submitted once each, `B` is
not, and the failure of `B` is logged. -/
theorem batch_partial_failure_witness :
    (([(lit "A", lit "alpha")] ++ (lit "B", lit "file(/run/b)") :: [(lit "C", lit "gamma")]).map
      Prod.fst).Nodup ∧
    (∃ n stk m st',
      batchLoop (refSys []) (lit "t0") batchConfig repoKey [(lit "A", lit "alpha")]
        (0, ⟨sealFailsWorld, []⟩) = some (n, stk) ∧
      batchLoop (refSys []) (lit "t0") batchConfig repoKey threeSecrets
        (0, ⟨sealFailsWorld, []⟩) = some (m, st') ∧
      iterations (lit "B") st'.trace = 1 ∧
      submissions (lit "B") st'.trace
        = if resolvesAndEncrypts (refSys []) repoKey stk (lit "B", lit "file(/run/b)")
          then 1 else 0) ∧
    (runBatch (refSys []) (lit "t0") batchConfig repoKey threeSecrets ⟨sealFailsWorld, []⟩).map
      (fun r => (r.1, r.2.trace.getLast?)) = some (2, some (.printWarning 2 3)) ∧
    (runBatch (refSys []) (lit "t0") batchConfig repoKey threeSecrets ⟨sealFailsWorld, []⟩).map
      (fun r => [submissions (lit "A") r.2.trace, submissions (lit "B") r.2.trace,
        submissions (lit "C") r.2.trace]) = some [1, 0, 1] ∧
    (runBatch (refSys []) (lit "t0") batchConfig repoKey threeSecrets ⟨sealFailsWorld, []⟩).map
      (fun r => r.2.trace.filter (Event.isLineOf (lit "B")))
      = some [.logEncryptFailed (lit "B") (.sealFailed (lit "unexpected EOF"))] := by
  refine ⟨by decide, ?_, by decide, by decide, by decide⟩
  obtain ⟨n, stk, m, st', h1, h2, h3, h4, _⟩ := batch_partial_failure World (refSys [])
    (lit "t0") batchConfig repoKey [(lit "A", lit "alpha")] [(lit "C", lit "gamma")]
    (lit "B", lit "file(/run/b)") ⟨sealFailsWorld, []⟩ (by decide)
  exact ⟨n, stk, m, st', h1, h2, by simpa [iterations] using h3,
    by simpa [submissions] using h4⟩

/-- C7 as stated fails: the key of length 31 is the key of the whole run, so
with `A`, `B` and `C` in a world where everything else works the run reports 0
of 3, not 2 of 3, and submits nothing; and no behaviour of the collaborators
makes a run of three secrets with a key of 31 bytes end with the counter at 2. -/
theorem batch_short_key_counterexample :
    (refSys []).b64Decode shortKey.key = .ok (repoPublic.take 31) ∧
    (runBatch (refSys []) (lit "t0") batchConfig shortKey threeSecrets ⟨goodWorld, []⟩).map
      (fun r => (r.1, r.2.trace))
      = some (0, [.logEncryptFailed (lit "A") (.invalidKeyLength 31),
          .readFile (lit "/run/b"),
          .logEncryptFailed (lit "B") (.invalidKeyLength 31),
          .logEncryptFailed (lit "C") (.invalidKeyLength 31),
          .printWarning 0 3]) ∧
    ¬ ∃ (sys : Sys World) (token : GoString) (cfg : Config) (key : PublicKey)
        (a b c : GoString × GoString) (st st' : St World) (bs : List Byte),
        sys.b64Decode key.key = .ok bs ∧ bs.length = 31 ∧
        batchLoop sys token cfg key [a, b, c] (0, st) = some (2, st') := by
  refine ⟨by decide, by decide, ?_⟩
  rintro ⟨sys, token, cfg, key, a, b, c, st, st', bs, hd, hl, hrun⟩
  have hbad : ¬ ∃ bs, sys.b64Decode key.key = .ok bs ∧ bs.length = 32 := by
    rintro ⟨bs', hd', hl'⟩
    rw [hd] at hd'
    simp only [Except.ok.injEq] at hd'
    rw [hd', hl'] at hl
    exact absurd hl (by decide)
  obtain ⟨st2, _, hloop, _⟩ := batchLoop_spec World sys token cfg key [a, b, c] 0 st
  rw [succeededSecrets_nil_of_never World sys token cfg key
    (wrong_key_never_encrypts World sys key hbad) [a, b, c] st, hrun] at hloop
  simp at hloop

/-- C8 at the command line `-owner octo -repo app -token t0` with no config
file and no secret: `main` ends with the no-secrets error and no event. -/
theorem main_fatal_before_any_work_witness :
    loadStep (refSys []) { owner := lit "octo", repo := lit "app", token := lit "t0" }
      ⟨goodWorld, []⟩ = (.ok {}, ⟨goodWorld, []⟩) ∧
    (∃ f, main (refSys []) { owner := lit "octo", repo := lit "app", token := lit "t0" }
        ⟨goodWorld, []⟩ = some (.error f, ⟨goodWorld, []⟩) ∧
      ∀ cause, f ≠ .getPublicKey cause) ∧
    main (refSys []) { owner := lit "octo", repo := lit "app", token := lit "t0" }
      ⟨goodWorld, []⟩ = some (.error .noSecrets, ⟨goodWorld, []⟩) := by
  refine ⟨by decide, ?_, by decide⟩
  obtain ⟨f, h1, h2, _⟩ := main_fatal_before_any_work World (refSys [])
    { owner := lit "octo", repo := lit "app", token := lit "t0" } ⟨goodWorld, []⟩ {}
    ⟨goodWorld, []⟩ (by decide) (Or.inr (Or.inr (Or.inl ⟨_, rfl, by decide⟩)))
  exact ⟨f, h1, h2⟩

/-- C9 at a config with the secrets `A -> 1` and `N -> old` and the command
line `-secret N -value V`: the map becomes `A -> 1`, `N -> V`; and at a config
without secrets: the map becomes `N -> V`. -/
theorem mergeFlagSecret_merges_witness :
    (∃ m, mergeFlagSecret { secret := lit "N", value := lit "V" }
          { Secrets := some [(lit "A", lit "1"), (lit "N", lit "old")] }
          = .ok { Secrets := some m } ∧
        m.get (lit "N") = some (lit "V") ∧ m.get (lit "A") = some (lit "1")) ∧
    mergeFlagSecret { secret := lit "N", value := lit "V" }
        { Secrets := some [(lit "A", lit "1"), (lit "N", lit "old")] }
      = .ok { Secrets := some [(lit "A", lit "1"), (lit "N", lit "V")] } ∧
    mergeFlagSecret { secret := lit "N", value := lit "V" } {}
      = .ok { Secrets := some [(lit "N", lit "V")] } := by
  refine ⟨?_, by decide, by decide⟩
  obtain ⟨m, h1, h2, h3, _⟩ := mergeFlagSecret_merges { secret := lit "N", value := lit "V" }
    { Secrets := some [(lit "A", lit "1"), (lit "N", lit "old")] } (by decide) (by decide)
  refine ⟨m, h1, h2, ?_⟩
  rw [h3 (lit "A") (by decide)]
  decide

/-- C10 fails on the code: with `-secret N -value V` on the command line and a
config file whose deprecated fields are `secret: N`, `value: W`, the secrets
map used for the batch maps `N` to `W`, the value of the config file, and `W`
is what gets sealed and submitted: the config's single secret is merged after
the flags and overwrites them. -/
theorem flag_secret_overwritten_by_config :
    (startup (refSys [legacyDoc]) legacyFlags ⟨legacyWorld, []⟩).1.map
      (fun r => r.1.Secrets) = .ok (some [(lit "N", lit "W")]) ∧
    (main (refSys [legacyDoc]) legacyFlags ⟨legacyWorld, []⟩).map
      (fun r => (r.1, r.2.trace.filter fun e => e.isSecretWork && !(Event.isSubmitOf (lit "N") e)))
      = some (.ok (), [.seal (lit "W") repoPublic, .printSet (lit "N")]) := by
  decide

end GhSecretSetter
